import Mathlib

/-!
# Verification of the sergio-ar-api consolidation, persistence and reporting core

This development is a shallow embedding of the algorithmic core of the
repository:

* the dialogue (roster) sheet row mapper with carry-forward inheritance and
  header/footer trimming (`src/routes/consolidator/upload_and_process.rs`,
  `consolidate_files`, sheet-mapping loops);
* the date/time normalisation used at each call site (`NaiveDateTime`
  parsing of reformatted `d/m/Y` strings, with chrono's range validation);
* the reconciliation of the two roster snapshots into classified
  consolidated rows;
* the idempotent persistence of teachers / schedules and of invoice rows
  (database state is modelled as in-memory association structures, lookups
  by the same keys the SQL queries use);
* the efficiency aggregation (`generate_efficiency_report.rs`) including the
  `usize` wrapping subtraction and the `as i32` narrowing performed by the
  source, and the `f32` special values produced by its percentage-variance
  division;
* the consolidated report CSV assembly (`generate_consolidated_report.rs`)
  with its positional indexing into the per-schedule CSV line buffer.

Rust `panic!`/`unwrap()` failures abort the whole spawned consolidation
task; they are modelled by `Option`, `none` meaning the batch dies.
Machine integers are modelled as `Nat`/`Int` with explicit `% 2 ^ 64`
wrapping and two's-complement narrowing where the source over/underflows.
-/

/-! ## Kernel-computable string primitives

`String.splitOn`, `str::to_lowercase` and `String::replace` are modelled
on character lists so that every definition evaluates inside the kernel. -/

/-- Split a character list at every occurrence of `sep` (Rust
`str::split` with a one-character pattern: splitting the empty string
yields one empty piece, and separators at either end yield empty
pieces). -/
def splitChars (sep : Char) : List Char → List (List Char)
  | [] => [[]]
  | c :: cs =>
    match splitChars sep cs with
    | [] => [[]]
    | g :: gs => if c = sep then [] :: g :: gs else (c :: g) :: gs

/-- String split on a one-character separator. -/
def splitOnChar (sep : Char) (s : String) : List String :=
  (splitChars sep s.data).map String.mk

/-- ASCII lowercasing (`str::to_lowercase`; every string it is applied
to here is ASCII). -/
def charLower (c : Char) : Char :=
  if 65 ≤ c.toNat ∧ c.toNat ≤ 90 then Char.ofNat (c.toNat + 32) else c

def strToLower (s : String) : String := String.mk (s.data.map charLower)

/-- `line.replace("\n", "")` — the only replacement the source performs
deletes every newline character. -/
def stripNewlines (s : String) : String :=
  String.mk (s.data.filter (fun c => c ≠ '\n'))

/-! ## Numeric segment parsing (chrono-style) -/

/-- A decimal digit segment of bounded width, as chrono accepts for a
numeric field of a format string: non-empty, all digits, at most
`maxLen` characters.  Returns its value. -/
def parseNatSeg (maxLen : Nat) (s : String) : Option Nat :=
  if s.length ≥ 1 ∧ s.length ≤ maxLen ∧ s.data.all (·.isDigit) then
    some (s.data.foldl (fun n c => n * 10 + (c.toNat - 48)) 0)
  else
    none

/-- Calendar timestamp: the fields of a `chrono::NaiveDateTime` that the
source ever reads (seconds are always zero at every parse site that a
claim touches). -/
structure DT where
  year : Nat
  month : Nat
  day : Nat
  hour : Nat
  minute : Nat
deriving DecidableEq, Repr

/-- Leap-year rule used by `chrono`'s calendar validation. -/
def isLeap (y : Nat) : Bool :=
  (y % 4 = 0 && y % 100 ≠ 0) || y % 400 = 0

/-- Days in a month, used to validate the day-of-month segment the way
`NaiveDateTime::parse_from_str` does. -/
def daysInMonth (y m : Nat) : Nat :=
  if m = 2 then (if isLeap y then 29 else 28)
  else if m = 4 ∨ m = 6 ∨ m = 9 ∨ m = 11 then 30
  else 31

/-- Validated calendar date from day/month/year segments
(`%d/%m/%Y`): wrong width, non-digits or out-of-range values fail. -/
def mkDate (dSeg mSeg ySeg : String) : Option (Nat × Nat × Nat) :=
  match parseNatSeg 2 dSeg, parseNatSeg 2 mSeg, parseNatSeg 4 ySeg with
  | some d, some m, some y =>
    if 1 ≤ m ∧ m ≤ 12 ∧ 1 ≤ d ∧ d ≤ daysInMonth y m then some (d, m, y) else none
  | _, _, _ => none

/-- Calendar-day equality: the source compares `day()`, `month()` and
`year()` of two `NaiveDateTime`s. -/
def sameDay (a b : DT) : Bool :=
  a.day = b.day && a.month = b.month && a.year = b.year

/-! ## The three date-parsing call sites

Each Rust call site splits the raw text itself (panicking on a wrong
segment count), swaps the first two `/`-segments (the exports are
month-first, the format strings day-first) and hands a rebuilt string to
`NaiveDateTime::parse_from_str`.  `none` models the `unwrap()` panic. -/

/-- Sheet-mapping date filter parse (`consolidate_files`, first/second
dialogue loops): take the date part of the cell, swap day and month,
parse as `%d/%m/%Y %H:%M:%S` with a literal `00:00:00` time. -/
def parseDialogueCellDate (s : String) : Option DT :=
  let datePart := (splitOnChar ' ' s).headD ""
  let parts := splitOnChar '/' datePart
  match parts.get? 1, parts.get? 0, parts.get? 2 with
  | some dSeg, some mSeg, some ySeg =>
    match mkDate dSeg mSeg ySeg with
    | some (d, m, y) => some ⟨y, m, d, 0, 0⟩
    | none => none
  | _, _, _ => none

/-- Twelve-hour clock conversion for `%I:%M %p`: `%I` accepts `1..12`
only. -/
def hour24 (h12 : Nat) (period : String) : Option Nat :=
  if period = "AM" then some (if h12 = 12 then 0 else h12)
  else if period = "PM" then some (if h12 = 12 then 12 else h12 + 12)
  else none

/-- Consolidated-row timestamp parse (sort comparator and persistence
loop): the raw value is `M/D/YYYY H:MM AM|PM`; the source splits on
spaces (`[0]` date, `[1]` time, `[2]` period — fewer parts panic), swaps
day and month, drops any seconds from the time, and parses the rebuilt
string with `%d/%m/%Y %I:%M %p`. -/
def parse12Swapped (s : String) : Option DT :=
  let sp := splitOnChar ' ' s
  match sp.get? 0, sp.get? 1, sp.get? 2 with
  | some datePart, some timePart, some period =>
    let dparts := splitOnChar '/' datePart
    let tparts := splitOnChar ':' timePart
    match dparts.get? 1, dparts.get? 0, dparts.get? 2,
          tparts.get? 0, tparts.get? 1 with
    | some dSeg, some mSeg, some ySeg, some hSeg, some minSeg =>
      match mkDate dSeg mSeg ySeg, parseNatSeg 2 hSeg, parseNatSeg 2 minSeg with
      | some (d, m, y), some h12, some minu =>
        if 1 ≤ h12 ∧ h12 ≤ 12 ∧ minu ≤ 59 then
          match hour24 h12 period with
          | some h => some ⟨y, m, d, h, minu⟩
          | none => none
        else none
      | _, _, _ => none
    | _, _, _, _, _ => none
  | _, _, _ => none

/-- Invoicing activity timestamp parse: raw value `M/D/YYYY HH:MM`;
split on spaces (`[0]` date, `[1]` time — a missing time part panics),
swap day and month, parse the rebuilt string with `%d/%m/%Y %H:%M`. -/
def parseInvoiceDT (s : String) : Option DT :=
  let sp := splitOnChar ' ' s
  match sp.get? 0, sp.get? 1 with
  | some datePart, some timePart =>
    let dparts := splitOnChar '/' datePart
    let tparts := splitOnChar ':' timePart
    match dparts.get? 1, dparts.get? 0, dparts.get? 2,
          tparts.get? 0, tparts.get? 1 with
    | some dSeg, some mSeg, some ySeg, some hSeg, some minSeg =>
      match mkDate dSeg mSeg ySeg, parseNatSeg 2 hSeg, parseNatSeg 2 minSeg with
      | some (d, m, y), some h, some minu =>
        if h ≤ 23 ∧ minu ≤ 59 then some ⟨y, m, d, h, minu⟩ else none
      | _, _, _ => none
    | _, _, _, _, _ => none
  | _, _ => none

/-! ## Tabular row mapper (dialogue sheets)

`consolidate_files` maps each dialogue sheet with five mutable
`*_temp` carry variables declared once before the first sheet's loop and
reused, unreset, by the second sheet's loop.  Each sheet's loop skips the
first 10 rows, then counts iterations and breaks (before processing) when
the 1-based counter reaches `total_rows - 3`. -/

/-- One mapped roster row (source struct `DialogueRow`). -/
structure DialogueRow where
  shift_group : String
  shift : String
  teacher_name : String
  start_date : String
  end_date : String
deriving DecidableEq, Repr

/-- The five carry-forward variables (`shift_group_temp`, `shift_temp`,
`teacher_name_temp`, `start_date_temp`, `end_date_temp`). -/
structure CarryState where
  shift_group : String
  shift : String
  teacher_name : String
  start_date : String
  end_date : String
deriving DecidableEq, Repr

/-- The temps start as empty `String::new()` values. -/
def initCarry : CarryState := ⟨"", "", "", "", ""⟩

/-- One loop iteration's carry update: each temp is overwritten exactly
when the corresponding cell is non-empty (`len() > 0`).  Column binding:
`shift_group` column 0, `teacher_name` column 1, `start_date` column 4,
`end_date` column 5, `shift` column 6. -/
def updateCarry (st : CarryState) (row : List String) : CarryState :=
  { shift_group := if (row.getD 0 "").length > 0 then row.getD 0 "" else st.shift_group
    shift := if (row.getD 6 "").length > 0 then row.getD 6 "" else st.shift
    teacher_name := if (row.getD 1 "").length > 0 then row.getD 1 "" else st.teacher_name
    start_date := if (row.getD 4 "").length > 0 then row.getD 4 "" else st.start_date
    end_date := if (row.getD 5 "").length > 0 then row.getD 5 "" else st.end_date }

/-- The `DialogueRow` built from the temps after the update. -/
def CarryState.toRow (st : CarryState) : DialogueRow :=
  ⟨st.shift_group, st.shift, st.teacher_name, st.start_date, st.end_date⟩

/-- The sheet loop's row consumption: starting from the 1-based iteration
counter `i`, keep rows until the counter would reach `total - 3`
(`total` is the row count after the 10-row skip; the subtraction is the
source's `usize` subtraction, whose wrapped value is never reached by the
counter when `total < 3`, so `Nat` truncation is behaviourally exact). -/
def loopTake (total : Nat) : Nat → List (List String) → List (List String)
  | _, [] => []
  | i, r :: rs => if i + 1 = total - 3 then [] else r :: loopTake total (i + 1) rs

/-- Rows of a sheet that the mapping loop actually processes: skip the
first 10, then `loopTake` with the break counter. -/
def trimSheet (sheet : List (List String)) : List (List String) :=
  loopTake (sheet.drop 10).length 0 (sheet.drop 10)

/-- Pure mapping pass: thread the carry state over the processed rows and
emit one `DialogueRow` per row (the row is built from the updated temps). -/
def mapRowsCore : List (List String) → CarryState → List DialogueRow × CarryState
  | [], st => ([], st)
  | r :: rs, st =>
    let st1 := updateCarry st r
    let (out, stf) := mapRowsCore rs st1
    (st1.toRow :: out, stf)

/-- The per-row date filter of the sheet loops: parse the start and end
dates of the mapped row (an unparsable date panics the task: `none`) and
keep the row when either calendar day equals the processing date. -/
def keepDialogueRow (pd : DT) (row : DialogueRow) : Option Bool :=
  match parseDialogueCellDate row.start_date, parseDialogueCellDate row.end_date with
  | some sd, some ed => some (sameDay sd pd || sameDay ed pd)
  | _, _ => none

/-- Sequential filtering of the mapped rows by `keepDialogueRow`;
the first unparsable date aborts everything. -/
def filterDialogueRows (pd : DT) : List DialogueRow → Option (List DialogueRow)
  | [] => some []
  | row :: rest =>
    match keepDialogueRow pd row with
    | none => none
    | some keep =>
      match filterDialogueRows pd rest with
      | none => none
      | some out => some (if keep then row :: out else out)

/-- One dialogue sheet's mapping loop, interleaved as in the source:
update temps, build the row, parse and filter by the processing date,
and continue; returns the retained rows and the final temps. -/
def mapDialogueSheet (pd : DT) : List (List String) → CarryState →
    Option (List DialogueRow × CarryState)
  | [], st => some ([], st)
  | r :: rs, st =>
    let st1 := updateCarry st r
    match keepDialogueRow pd st1.toRow with
    | none => none
    | some keep =>
      match mapDialogueSheet pd rs st1 with
      | none => none
      | some (out, stf) => some ((if keep then st1.toRow :: out else out), stf)

/-- The two-sheet mapping stage of `consolidate_files`: the temps are
initialised once, the first sheet's trimmed rows are mapped, and the
second sheet's loop reuses the temps exactly as the first left them. -/
def mapRun (pd : DT) (sheet1 sheet2 : List (List String)) :
    Option (List DialogueRow × List DialogueRow) :=
  match mapDialogueSheet pd (trimSheet sheet1) initCarry with
  | none => none
  | some (rows1, st1) =>
    match mapDialogueSheet pd (trimSheet sheet2) st1 with
    | none => none
    | some (rows2, _) => some (rows1, rows2)

/-! Specification-side descriptions used to state carry-forward claims. -/

/-- Spec-side: the carry value for one column after scanning a sequence
of cells — the last non-blank cell, or the incoming value when every
cell is blank ("the last non-blank value per such column"). -/
def carryAfter (init : String) (cells : List String) : String :=
  cells.foldl (fun acc c => if c ≠ "" then c else acc) init

/-- The carry state after folding the processed rows. -/
def stateAfter (st : CarryState) (rows : List (List String)) : CarryState :=
  rows.foldl updateCarry st

/-! ## Dialogue reconciliation engine

Lines 702–980 of `consolidate_files`: split both mapped row lists by
`shift_group`, reconcile each group present in both, then sort three
times (stable) and re-filter by the processing date.

The source groups with `HashMap`s whose iteration order is unspecified;
the model uses insertion-ordered association lists, which fixes one of
the admissible orders (single-group inputs, and every per-group fact,
are order-independent). -/

/-- One reconciled output row (source struct `DialogueConsolidatedRow`). -/
structure DialogueConsolidatedRow where
  shift_group : String
  shift : String
  shift_type : String
  teacher_name : String
  start_date : String
  end_date : String
deriving DecidableEq, Repr

/-- Append a row to its group's bucket, keeping first-insertion group
order (the source pushes into a `HashMap<String, Vec<DialogueRow>>`). -/
def addToGroup (acc : List (String × List DialogueRow)) (row : DialogueRow) :
    List (String × List DialogueRow) :=
  if acc.any (fun p => p.1 = row.shift_group) then
    acc.map (fun p => if p.1 = row.shift_group then (p.1, p.2 ++ [row]) else p)
  else
    acc ++ [(row.shift_group, [row])]

/-- Split rows by `shift_group`. -/
def splitByGroup (rows : List DialogueRow) : List (String × List DialogueRow) :=
  rows.foldl addToGroup []

/-- `HashMap::get`: the bucket of a group, when present. -/
def groupLookup (m : List (String × List DialogueRow)) (g : String) :
    Option (List DialogueRow) :=
  (m.find? (fun p => p.1 = g)).map (·.2)

/-- `collect::<HashMap<String, String>>()` over `(shift, teacher_name)`
pairs: on duplicate keys the last pair wins, so lookup scans the reversed
pair list. -/
def previousShiftTeacher (firstRows : List DialogueRow) (s : String) : Option String :=
  (((firstRows.map (fun r => (r.shift, r.teacher_name))).reverse).find?
    (fun p => p.1 = s)).map (·.2)

/-- `first_shifts` / `second_shifts`: the shift labels of a snapshot's
rows. -/
def shiftsOf (rows : List DialogueRow) : List String := rows.map (·.shift)

/-- `lost_shifts`: shifts of the first snapshot absent from the second. -/
def lostShifts (first second : List DialogueRow) : List String :=
  (shiftsOf first).filter (fun s => ¬ (shiftsOf second).contains s)

/-- `new_shifts`: shifts of the second snapshot absent from the first. -/
def newShifts (first second : List DialogueRow) : List String :=
  (shiftsOf second).filter (fun s => ¬ (shiftsOf first).contains s)

/-- `picked_up_shifts`: shifts of second-snapshot rows whose previous
holder (looked up in the first snapshot's shift-to-teacher map) differs
from the current teacher. -/
def pickedUpShifts (first second : List DialogueRow) : List String :=
  (second.filter (fun row =>
    match previousShiftTeacher first row.shift with
    | some t => t ≠ row.teacher_name
    | none => false)).map (·.shift)

/-- `lost_but_picked_up_shifts`: shifts of first-snapshot rows that the
second snapshot also holds (first matching row) under a different
teacher. -/
def lostButPickedUpShifts (first second : List DialogueRow) : List String :=
  (first.filter (fun row =>
    if (shiftsOf second).contains row.shift then
      match second.find? (fun r2 => r2.shift = row.shift) with
      | some r2 => r2.teacher_name ≠ row.teacher_name
      | none => false
    else false)).map (·.shift)

/-- Building one consolidated output row from a snapshot row. -/
def mkConsolidated (g ty : String) (r : DialogueRow) : DialogueConsolidatedRow :=
  ⟨g, r.shift, ty, r.teacher_name, r.start_date, r.end_date⟩

/-- Reconcile one `shift_group` present in both snapshots
(lines 752–909): compute the five shift categories and emit the
consolidated rows in the source's order — `Pickup`, `Internal Pickup`,
`Dropped`, `Dropped & Picked Up`, then the unchanged `-` rows. -/
def consolidateGroup (shift_group : String)
    (firstRows secondRows : List DialogueRow) : List DialogueConsolidatedRow :=
  ((secondRows.filter (fun r => (newShifts firstRows secondRows).contains r.shift)).map
    (mkConsolidated shift_group "Pickup")) ++
  ((secondRows.filter (fun r => (pickedUpShifts firstRows secondRows).contains r.shift)).map
    (mkConsolidated shift_group "Internal Pickup")) ++
  ((firstRows.filter (fun r => (lostShifts firstRows secondRows).contains r.shift)).map
    (mkConsolidated shift_group "Dropped")) ++
  ((firstRows.filter (fun r =>
      (lostButPickedUpShifts firstRows secondRows).contains r.shift)).map
    (mkConsolidated shift_group "Dropped & Picked Up")) ++
  ((secondRows.filter (fun r =>
      ¬ (pickedUpShifts firstRows secondRows).contains r.shift ∧
      ¬ (newShifts firstRows secondRows).contains r.shift ∧
      ¬ (lostShifts firstRows secondRows).contains r.shift ∧
      ¬ (lostButPickedUpShifts firstRows secondRows).contains r.shift)).map
    (mkConsolidated shift_group "-"))

/-- Reconcile every group of the first snapshot, skipping groups absent
from the second (`None => {}`), concatenating in group order. -/
def consolidateAll (firstSplit : List (String × List DialogueRow))
    (secondSplit : List (String × List DialogueRow)) :
    List DialogueConsolidatedRow :=
  firstSplit.foldl (fun acc p =>
    match groupLookup secondSplit p.1 with
    | some secondRows => acc ++ consolidateGroup p.1 p.2 secondRows
    | none => acc) []

/-- Stable insertion sort with a boolean `≤`; `Vec::sort_by` is a stable
sort, so any stable algorithm with the same comparator is extensionally
the source's. -/
def insertSorted (le : α → α → Bool) (x : α) : List α → List α
  | [] => [x]
  | y :: ys => if le x y then x :: y :: ys else y :: insertSorted le x ys

def insertionSort (le : α → α → Bool) : List α → List α
  | [] => []
  | x :: xs => insertSorted le x (insertionSort le xs)

/-- Byte-wise lexicographic string order (Rust `Ord` on `String`). -/
def lexLeChars : List Char → List Char → Bool
  | [], _ => true
  | _ :: _, [] => false
  | x :: xs, y :: ys =>
    if x.toNat < y.toNat then true
    else if x.toNat = y.toNat then lexLeChars xs ys
    else false

def strLe (a b : String) : Bool := lexLeChars a.data b.data

/-- Chronological order on parsed timestamps (`NaiveDateTime::cmp`),
lexicographic on (year, month, day, hour, minute). -/
def dtLe (a b : DT) : Bool :=
  if a.year ≠ b.year then a.year < b.year
  else if a.month ≠ b.month then a.month < b.month
  else if a.day ≠ b.day then a.day < b.day
  else if a.hour ≠ b.hour then a.hour < b.hour
  else a.minute < b.minute

/-- The start-date sort comparator (lines 919–953) re-parses both rows'
`start_date` with the swap-and-`%d/%m/%Y %I:%M %p` pipeline and compares
the timestamps.  The source `unwrap()`s inside the comparator; rows with
unparsable start dates would panic the task, and no theorem below sorts
such a row — the fallback value is never compared. -/
def startDateLe (a b : DialogueConsolidatedRow) : Bool :=
  dtLe ((parse12Swapped a.start_date).getD ⟨0, 0, 0, 0, 0⟩)
    ((parse12Swapped b.start_date).getD ⟨0, 0, 0, 0, 0⟩)

/-- The three successive stable sorts: by parsed start date, then by
teacher name, then by shift group (the later sorts dominate). -/
def sortConsolidated (rows : List DialogueConsolidatedRow) :
    List DialogueConsolidatedRow :=
  insertionSort (fun a b => strLe a.shift_group b.shift_group)
    (insertionSort (fun a b => strLe a.teacher_name b.teacher_name)
      (insertionSort startDateLe rows))

/-- The final filter pass (lines 959–980): re-parse each row's start
date (date part only, swapped, `%H:%M:%S` literal midnight — an
unparsable date panics) and keep rows whose calendar day equals the
processing date. -/
def filterConsolidated (pd : DT) : List DialogueConsolidatedRow →
    Option (List DialogueConsolidatedRow)
  | [] => some []
  | row :: rest =>
    match parseDialogueCellDate row.start_date with
    | none => none
    | some sd =>
      match filterConsolidated pd rest with
      | none => none
      | some out => some (if sameDay sd pd then row :: out else out)

/-- The whole reconciliation stage on the two mapped-and-date-filtered
row lists: group, reconcile, sort, and re-filter by start date. -/
def reconcile (pd : DT) (firstRows secondRows : List DialogueRow) :
    Option (List DialogueConsolidatedRow) :=
  filterConsolidated pd
    (sortConsolidated (consolidateAll (splitByGroup firstRows) (splitByGroup secondRows)))

/-! ## Invoicing rows: mapping, date filter and upsert

Lines 469–568 map the cleaned invoicing records into `InvoicingRow`s and
keep only those whose `activity_start` calendar day equals the
processing date; lines 577–700 upsert each kept row by the composite key
`(teacher_name, shift, activity_start, activity_end)`, updating only
`eligible` on a hit. -/

/-- One billing activity record (source struct `InvoicingRow`), with the
activity timestamps already parsed. -/
structure InvoicingRow where
  teacher_name : String
  eligible : Bool
  activity_start : DT
  activity_end : DT
  shift : String
deriving DecidableEq, Repr

/-- Field extraction and timestamp parsing for one cleaned CSV record:
`get(4)` teacher, `get(5) == "Eligible"` eligibility, `get(7)`/`get(8)`
activity start/end (parsed; a parse failure panics the task), `get(9)`
shift.  Missing cells default to empty/false via the `None` arms. -/
def parseInvoiceRecord (record : List String) : Option InvoicingRow :=
  let teacher_name := record.getD 4 ""
  let eligible := record.getD 5 "" = "Eligible"
  let shift := record.getD 9 ""
  match parseInvoiceDT (record.getD 7 ""), parseInvoiceDT (record.getD 8 "") with
  | some sd, some ed => some ⟨teacher_name, eligible, sd, ed, shift⟩
  | _, _ => none

/-- The invoicing mapping loop: parse each record in order (the first
unparsable timestamp aborts the whole batch) and keep exactly the rows
whose `activity_start` day, month and year equal the processing date. -/
def mapInvoicing (pd : DT) : List (List String) → Option (List InvoicingRow)
  | [] => some []
  | record :: rest =>
    match parseInvoiceRecord record with
    | none => none
    | some row =>
      match mapInvoicing pd rest with
      | none => none
      | some out => some (if sameDay row.activity_start pd then row :: out else out)

/-- Dedup key of the `invoices` table:
`(teacher_name, shift, activity_start, activity_end)`. -/
structure InvKey where
  teacher_name : String
  shift : String
  activity_start : DT
  activity_end : DT
deriving DecidableEq, Repr

def invKeyOf (r : InvoicingRow) : InvKey :=
  ⟨r.teacher_name, r.shift, r.activity_start, r.activity_end⟩

/-- The `invoices` table: rows keyed by `InvKey` carrying `eligible`.
`SELECT ... WHERE` key equality is a first-match scan. -/
abbrev InvDB := List (InvKey × Bool)

def lookupInvoice (db : InvDB) (k : InvKey) : Option Bool :=
  (db.find? (fun p => p.1 = k)).map (·.2)

/-- `UPDATE invoices SET eligible = $1 WHERE id = $2`: flip `eligible`
on the row the key lookup found (the first match). -/
def updateInvoice (k : InvKey) (e : Bool) : InvDB → InvDB
  | [] => []
  | p :: ps => if p.1 = k then (p.1, e) :: ps else p :: updateInvoice k e ps

/-- Counters accumulated by the invoice upsert loop.  `skipped_invoices`
counts only database errors, which the storage model does not produce —
the storage-failure policy of the source is outside this embedding. -/
structure InvCounters where
  inserted : Nat
  updated : Nat
  skipped : Nat
deriving DecidableEq, Repr

/-- The invoice upsert loop (lines 577–700): look the row's key up; on a
hit update `eligible` (counted `updated`), otherwise insert the row
(counted `inserted`). -/
def persistInvoices (db : InvDB) : List InvoicingRow → InvDB × InvCounters
  | [] => (db, ⟨0, 0, 0⟩)
  | row :: rest =>
    match lookupInvoice db (invKeyOf row) with
    | some _ =>
      let (db1, c) := persistInvoices (updateInvoice (invKeyOf row) row.eligible db) rest
      (db1, ⟨c.inserted, c.updated + 1, c.skipped⟩)
    | none =>
      let (db1, c) := persistInvoices (db ++ [(invKeyOf row, row.eligible)]) rest
      (db1, ⟨c.inserted + 1, c.updated, c.skipped⟩)

/-! ## Teacher and schedule persistence

Lines 986–1120 of `consolidate_files`: for each consolidated row, parse
its start/end timestamps (an unparsable one panics), upsert the teacher
by exact name (inserting returns a fresh serial id), then upsert the
schedule by the full composite key
`(teacher_id, start_date, end_date, shift, shift_type, shift_group)`. -/

/-- Composite dedup key of the `schedules` table. -/
structure ScheduleKey where
  teacher_id : Nat
  start_date : DT
  end_date : DT
  shift : String
  shift_type : String
  shift_group : String
deriving DecidableEq, Repr

/-- Durable state touched by the loop: the `teachers` table (name, id)
with its serial id counter, and the `schedules` table's key set. -/
structure PersistDB where
  teachers : List (String × Nat)
  nextTeacherId : Nat
  schedules : List ScheduleKey
deriving DecidableEq, Repr

/-- `SELECT * FROM teachers WHERE name = $1` (first match). -/
def lookupTeacher (db : PersistDB) (name : String) : Option Nat :=
  (db.teachers.find? (fun p => p.1 = name)).map (·.2)

/-- `SELECT * FROM schedules WHERE` the full composite key matches. -/
def scheduleFound (db : PersistDB) (k : ScheduleKey) : Bool :=
  db.schedules.contains k

/-- Counters of the persistence loop
(`new_teachers`, `skipped_teachers`, `new_shifts`, `skipped_shifts`). -/
structure PersistCounters where
  new_teachers : Nat
  skipped_teachers : Nat
  new_shifts : Nat
  skipped_shifts : Nat
deriving DecidableEq, Repr

/-- One consolidated row's persistence step: parse both timestamps, find
or insert the teacher, then find or insert the schedule row.  Returns
the new state and the (teacher-inserted?, schedule-inserted?) outcome. -/
def persistStep (db : PersistDB) (row : DialogueConsolidatedRow) :
    Option (PersistDB × Bool × Bool) :=
  match parse12Swapped row.start_date, parse12Swapped row.end_date with
  | some sd, some ed =>
    let (db1, tid, newT) :=
      match lookupTeacher db row.teacher_name with
      | some i => (db, i, false)
      | none =>
        ({ db with teachers := db.teachers ++ [(row.teacher_name, db.nextTeacherId)],
                   nextTeacherId := db.nextTeacherId + 1 },
         db.nextTeacherId, true)
    let k : ScheduleKey := ⟨tid, sd, ed, row.shift, row.shift_type, row.shift_group⟩
    if scheduleFound db1 k then
      some (db1, newT, false)
    else
      some ({ db1 with schedules := db1.schedules ++ [k] }, newT, true)
  | _, _ => none

/-- The persistence loop over all consolidated rows, accumulating the
four counters. -/
def persistRows (db : PersistDB) : List DialogueConsolidatedRow →
    Option (PersistDB × PersistCounters)
  | [] => some (db, ⟨0, 0, 0, 0⟩)
  | row :: rest =>
    match persistStep db row with
    | none => none
    | some (db1, newT, newS) =>
      match persistRows db1 rest with
      | none => none
      | some (db2, c) =>
        some (db2,
          ⟨c.new_teachers + (if newT then 1 else 0),
           c.skipped_teachers + (if newT then 0 else 1),
           c.new_shifts + (if newS then 1 else 0),
           c.skipped_shifts + (if newS then 0 else 1)⟩)

/-- Lookup-stable extension: every teacher lookup of the smaller state
returns the same id in the larger one, and every schedule key persists.
The loop only ever appends, so each step extends the state. -/
def dbExtends (db2 db1 : PersistDB) : Prop :=
  (∀ n i, lookupTeacher db1 n = some i → lookupTeacher db2 n = some i) ∧
  (∀ k : ScheduleKey, k ∈ db1.schedules → k ∈ db2.schedules)

/-! ## Efficiency aggregator (`generate_efficiency_report.rs`)

Calendar days are modelled by their day ordinal (`NaiveDate` is order
isomorphic to days-since-epoch and `succ_opt` is `+ 1`); only
`start_date.date()` of a fetched schedule row is ever read here, so a
schedule carries that ordinal directly.  `taught - scheduled` and the
following `- no_shows` are Rust `usize` subtractions, which wrap modulo
`2 ^ 64` in release builds; the `as i32` narrowings are two's-complement
truncations.  Both are modelled explicitly. -/

/-- A fetched schedule row, restricted to the fields the aggregation
reads: the teacher (joined name), the start calendar day and the shift
label. -/
structure EffSchedule where
  teacher_name : String
  start_day : Nat
  shift : String
deriving DecidableEq, Repr

/-- A persisted invoice row as the aggregation query reads it
(`SELECT eligible FROM invoices WHERE invoices.shift = $1`): only the
shift label and the eligibility flag matter. -/
structure EffInvoice where
  shift : String
  eligible : Bool
deriving DecidableEq, Repr

/-- 64-bit wrapping subtraction (`usize` underflow in release builds). -/
def subWrap64 (a b : Nat) : Nat :=
  (a % 2 ^ 64 + (2 ^ 64 - b % 2 ^ 64)) % 2 ^ 64

/-- 64-bit wrapping addition. -/
def addWrap64 (a b : Nat) : Nat := (a + b) % 2 ^ 64

/-- `as i32` narrowing: truncate to 32 bits, read as two's complement. -/
def toI32 (n : Nat) : Int :=
  if n % 2 ^ 32 < 2 ^ 31 then ((n % 2 ^ 32 : Nat) : Int)
  else ((n % 2 ^ 32 : Nat) : Int) - 2 ^ 32

/-- One teacher-day's derived efficiency record (source struct
`EfficiencyDay`; its four numeric fields are `i32`). -/
structure EfficiencyDay where
  date : Nat
  scheduled : Int
  taught : Int
  no_shows : Int
  variance : Int
  teacher_name : String
deriving DecidableEq, Repr

/-- The teacher's schedule rows on one day. -/
def daySchedules (schedules : List EffSchedule) (t : String) (d : Nat) :
    List EffSchedule :=
  schedules.filter (fun sch => sch.teacher_name = t && sch.start_day = d)

/-- The nested invoice loop: for each schedule row of the day, every
invoice row whose `shift` equals the schedule's shift bumps `taught`
when eligible and `no_shows` otherwise. -/
def taughtNoShows (invoices : List EffInvoice) (scheds : List EffSchedule) :
    Nat × Nat :=
  scheds.foldl (fun acc sch =>
    (invoices.filter (fun inv => inv.shift = sch.shift)).foldl
      (fun a inv => if inv.eligible then (a.1 + 1, a.2) else (a.1, a.2 + 1)) acc)
    (0, 0)

/-- The loop body for one `(teacher, current_date)` pair (lines
130–187): `scheduled` is the day's row count times two; `taught` and
`no_shows` from the invoice value-join; the variance is the wrapping
`taught - scheduled - no_shows` narrowed to `i32`. -/
def effDayFor (schedules : List EffSchedule) (invoices : List EffInvoice)
    (t : String) (d : Nat) : EfficiencyDay :=
  let dayScheds := daySchedules schedules t d
  let scheduled := dayScheds.length * 2
  let tn := taughtNoShows invoices dayScheds
  let variance := subWrap64 (subWrap64 tn.1 scheduled) tn.2
  ⟨d, toI32 scheduled, toI32 tn.1, toI32 tn.2, toI32 variance, t⟩

/-- The day iteration `while current_date <= end_date.date()`, stepping
by `succ_opt` (one day); the loop runs once per day of the inclusive
range, here counted down structurally so that the definition evaluates
inside the kernel. -/
def daysFromToAux : Nat → Nat → List Nat
  | 0, _ => []
  | n + 1, cur => cur :: daysFromToAux n (cur + 1)

def daysFromTo (cur e : Nat) : List Nat := daysFromToAux (e + 1 - cur) cur

/-- Distinct teachers of the fetched schedule rows, in first-appearance
order (push-if-absent loop). -/
def distinctEffTeachers (schedules : List EffSchedule) : List String :=
  schedules.foldl (fun acc sch =>
    if acc.contains sch.teacher_name then acc else acc ++ [sch.teacher_name]) []

/-- `table_days_efficiencies`: for every distinct teacher, one record
per day of the inclusive range, teacher-major as the source pushes
them. -/
def effTable (schedules : List EffSchedule) (invoices : List EffInvoice)
    (s e : Nat) : List EfficiencyDay :=
  (distinctEffTeachers schedules).foldl (fun acc t =>
    acc ++ (daysFromTo s e).map (effDayFor schedules invoices t)) []

/-! ### `f32` values for the percentage variance

The percentage variance is computed in `f32`.  Finite arithmetic is
modelled exactly over `ℚ` (the totals are small integers, exactly
representable; rounding of the finite quotient is immaterial to every
statement below, which only distinguishes the IEEE special values from
finite ones and evaluates exact cases); the special-value rules for
subtraction, division and multiplication follow IEEE 754. -/

inductive F32 where
  | nan : F32
  | inf : F32
  | ninf : F32
  | fin (q : ℚ) : F32
deriving DecidableEq, Repr

def f32Sub (a b : F32) : F32 :=
  match a, b with
  | .fin x, .fin y => .fin (x - y)
  | .nan, _ => .nan
  | _, .nan => .nan
  | .inf, .inf => .nan
  | .ninf, .ninf => .nan
  | .inf, _ => .inf
  | .ninf, _ => .ninf
  | .fin _, .inf => .ninf
  | .fin _, .ninf => .inf

def f32Div (a b : F32) : F32 :=
  match a, b with
  | .fin x, .fin y =>
    if y = 0 then (if x = 0 then .nan else if 0 < x then .inf else .ninf)
    else .fin (x / y)
  | .nan, _ => .nan
  | _, .nan => .nan
  | .inf, .inf => .nan
  | .inf, .ninf => .nan
  | .ninf, .inf => .nan
  | .ninf, .ninf => .nan
  | .inf, .fin y => if 0 ≤ y then .inf else .ninf
  | .ninf, .fin y => if 0 ≤ y then .ninf else .inf
  | .fin _, .inf => .fin 0
  | .fin _, .ninf => .fin 0

def f32Mul (a b : F32) : F32 :=
  match a, b with
  | .fin x, .fin y => .fin (x * y)
  | .nan, _ => .nan
  | _, .nan => .nan
  | .inf, .inf => .inf
  | .inf, .ninf => .ninf
  | .ninf, .inf => .ninf
  | .ninf, .ninf => .inf
  | .inf, .fin y => if y = 0 then .nan else if 0 < y then .inf else .ninf
  | .fin x, .inf => if x = 0 then .nan else if 0 < x then .inf else .ninf
  | .ninf, .fin y => if y = 0 then .nan else if 0 < y then .ninf else .inf
  | .fin x, .ninf => if x = 0 then .nan else if 0 < x then .ninf else .inf

/-- `(total_taught as f32 - total_scheduled as f32) / total_scheduled as f32
* 100.0`. -/
def percentageVariance (taught scheduled : Nat) : F32 :=
  f32Mul (f32Div (f32Sub (.fin taught) (.fin scheduled)) (.fin scheduled)) (.fin 100)

/-- Per-teacher totals over the range (`total_scheduled`, `total_taught`,
`total_no_shows`, `total_variance`; the last accumulates the wrapped
per-day variance with wrapping `usize` addition). -/
structure EffTotals where
  scheduled : Nat
  taught : Nat
  no_shows : Nat
  variance : Nat
deriving DecidableEq, Repr

def teacherTotals (schedules : List EffSchedule) (invoices : List EffInvoice)
    (s e : Nat) (t : String) : EffTotals :=
  (daysFromTo s e).foldl (fun acc d =>
    let dayScheds := daySchedules schedules t d
    let scheduled := dayScheds.length * 2
    let tn := taughtNoShows invoices dayScheds
    let variance := subWrap64 (subWrap64 tn.1 scheduled) tn.2
    ⟨acc.scheduled + scheduled, acc.taught + tn.1, acc.no_shows + tn.2,
     addWrap64 acc.variance variance⟩)
    ⟨0, 0, 0, 0⟩

/-- One teacher's summary row (source struct `EfficiencySummary`). -/
structure EfficiencySummary where
  teacher_name : String
  scheduled : Int
  taught : Int
  no_shows : Int
  variance : Int
  percentage_variance : F32
deriving DecidableEq, Repr

def summaryFor (schedules : List EffSchedule) (invoices : List EffInvoice)
    (s e : Nat) (t : String) : EfficiencySummary :=
  let tot := teacherTotals schedules invoices s e t
  ⟨t, toI32 tot.scheduled, toI32 tot.taught, toI32 tot.no_shows,
   toI32 tot.variance, percentageVariance tot.taught tot.scheduled⟩

/-- `table_summary`: one summary per distinct teacher, pushed at the end
of each teacher's day loop. -/
def effSummaries (schedules : List EffSchedule) (invoices : List EffInvoice)
    (s e : Nat) : List EfficiencySummary :=
  (distinctEffTeachers schedules).map (summaryFor schedules invoices s e)

/-! ## Consolidated report (`generate_consolidated_report.rs`)

One CSV line is pushed per fetched schedule row; the per-teacher summary
columns are then appended into `csv_lines[current_teacher]` for
`current_teacher = 0, 1, ...`, and finally the grand-total columns into
`csv_lines[current_teacher]` at `current_teacher = #teachers` — a plain
index that panics when out of range (`none`). -/

/-- A fetched schedule row as this route reads it. -/
structure CSchedule where
  teacher_name : String
  shift : String
  shift_type : String
  start_date : DT
  end_date : DT
deriving DecidableEq, Repr

def pad2 (n : Nat) : String := if n < 10 then "0" ++ toString n else toString n

def pad4 (n : Nat) : String :=
  if n < 10 then "000" ++ toString n
  else if n < 100 then "00" ++ toString n
  else if n < 1000 then "0" ++ toString n
  else toString n

/-- `NaiveDate`'s `Display` (`YYYY-MM-DD`). -/
def dtDateStr (d : DT) : String :=
  pad4 d.year ++ "-" ++ pad2 d.month ++ "-" ++ pad2 d.day

/-- `NaiveTime`'s `Display` for whole-minute times (`HH:MM:SS`). -/
def dtTimeStr (d : DT) : String := pad2 d.hour ++ ":" ++ pad2 d.minute ++ ":00"

/-- `NaiveDateTime`'s `Display`. -/
def dtStr (d : DT) : String := dtDateStr d ++ " " ++ dtTimeStr d

/-- The fetch-order sort: key `"{date}-{teacher}-{time}"` lowercased,
compared as strings. -/
def cschedSortKey (s : CSchedule) : String :=
  strToLower (dtDateStr s.start_date ++ "-" ++ s.teacher_name ++ "-" ++
    dtTimeStr s.start_date)

/-- One pushed CSV line per schedule row. -/
def cschedLine (s : CSchedule) : String :=
  s.teacher_name ++ "," ++ s.shift ++ "," ++ s.shift_type ++ "," ++
  dtStr s.start_date ++ "," ++ dtStr s.end_date ++ ",,,,\n"

/-- Distinct teacher names in first-appearance order. -/
def distinctCTeachers (schedules : List CSchedule) : List String :=
  schedules.foldl (fun acc sch =>
    if acc.contains sch.teacher_name then acc else acc ++ [sch.teacher_name]) []

/-- Per-teacher (scheduled, picked up, dropped) tallies over the rows. -/
def teacherTally (schedules : List CSchedule) (t : String) : Nat × Nat × Nat :=
  schedules.foldl (fun acc s =>
    if s.teacher_name = t then
      (acc.1 + 1,
       acc.2.1 + (if s.shift_type = "Pickup" ∨ s.shift_type = "Internal Pickup" ∨
                    s.shift_type = "Dropped & Picked Up" then 1 else 0),
       acc.2.2 + (if s.shift_type = "Dropped" then 1 else 0))
    else acc) (0, 0, 0)

/-- The teacher summary loop: append each sorted teacher's tally columns
to `csv_lines[i]` for consecutive `i`; an out-of-range index is the
source's panic. Returns the rewritten lines and the grand totals. -/
def writeTeacherSummaries (schedules : List CSchedule) :
    List String → Nat → List String → Option (List String × Nat × Nat × Nat)
  | lines, _, [] => some (lines, 0, 0, 0)
  | lines, i, t :: ts =>
    match lines.get? i with
    | none => none
    | some line =>
      let tally := teacherTally schedules t
      let line1 := stripNewlines line ++ t ++ "," ++ toString tally.1 ++ "," ++
        toString tally.2.1 ++ "," ++ toString tally.2.2 ++ "\n"
      match writeTeacherSummaries schedules (lines.set i line1) (i + 1) ts with
      | none => none
      | some (lines2, sc, pu, dr) =>
        some (lines2, sc + tally.1, pu + tally.2.1, dr + tally.2.2)

/-- The initial sort of the fetched rows by the lowercased
date-teacher-time key. -/
def sortSchedules (schedules : List CSchedule) : List CSchedule :=
  insertionSort (fun a b => strLe (cschedSortKey a) (cschedSortKey b)) schedules

/-- `table_teachers` as the summary loop iterates it: distinct names of
the sorted rows, sorted. -/
def reportTeachers (schedules : List CSchedule) : List String :=
  insertionSort strLe (distinctCTeachers (sortSchedules schedules))

/-- The whole report: sort the fetched rows, build one CSV line per row,
write the per-teacher summaries at indices `0..#teachers`, then write
the grand-total columns into `csv_lines[#teachers]`. -/
def generateConsolidatedReport (schedules : List CSchedule) : Option String :=
  let sorted := sortSchedules schedules
  let csvLines := sorted.map cschedLine
  let teachers := reportTeachers schedules
  match writeTeacherSummaries sorted csvLines 0 teachers with
  | none => none
  | some (lines1, sc, pu, dr) =>
    match lines1.get? teachers.length with
    | none => none
    | some line =>
      let line1 := stripNewlines line ++ "Total," ++ toString sc ++ "," ++
        toString pu ++ "," ++ toString dr ++ "\n"
      let lines2 := lines1.set teachers.length line1
      some ((("Teacher,Shift,Shift Type,Start Date,End Date,,,," ++
        "Teacher,Scheduled,Picked Up,Dropped\n") ::
        lines2).foldl (· ++ ·) "")

/-! ## Concrete sample data used by witnesses and counterexamples -/

/-- The reporting date 2024-03-01 (query string `2024-03-01`, parsed to
midnight of that day). -/
def pdA : DT := ⟨2024, 3, 1, 0, 0⟩

/-- An all-blank 7-cell sheet row (title/summary filler). -/
def padRow : List String := ["", "", "", "", "", "", ""]

def beforeRowA : DialogueRow :=
  ⟨"A", "S1", "Alice", "03/01/2024 09:00 AM", "03/01/2024 11:00 AM"⟩

def afterRowA : DialogueRow :=
  ⟨"A", "S1", "Bob", "03/01/2024 09:00 AM", "03/01/2024 11:00 AM"⟩

/-- What the reconciliation actually returns on the C3 scenario. -/
def c3Actual : List DialogueConsolidatedRow :=
  [⟨"A", "S1", "Dropped & Picked Up", "Alice", "03/01/2024 09:00 AM",
    "03/01/2024 11:00 AM"⟩,
   ⟨"A", "S1", "Internal Pickup", "Bob", "03/01/2024 09:00 AM",
    "03/01/2024 11:00 AM"⟩]

/-- Sheet-1 data row: `shift_group` "X", concrete dates on the reporting
day. -/
def sheetOneDataRow : List String :=
  ["X", "T1", "", "", "03/01/2024 09:00 AM", "03/01/2024 11:00 AM", "S1"]

/-- Sheet-2 data row with a blank `shift_group` cell. -/
def sheetTwoDataRow : List String :=
  ["", "T2", "", "", "03/01/2024 09:00 AM", "03/01/2024 11:00 AM", "S2"]

/-- 15-row sheet whose only processed row is `sheetOneDataRow`. -/
def carrySheetOne : List (List String) :=
  List.replicate 10 padRow ++ [sheetOneDataRow] ++ List.replicate 4 padRow

/-- 15-row sheet whose only processed row is `sheetTwoDataRow`. -/
def carrySheetTwo : List (List String) :=
  List.replicate 10 padRow ++ [sheetTwoDataRow] ++ List.replicate 4 padRow

/-- Two distinguishable data rows for the trimming counterexample. -/
def trimRowA : List String :=
  ["GA", "TA", "", "", "03/01/2024 09:00 AM", "03/01/2024 11:00 AM", "SA"]

def trimRowB : List String :=
  ["GB", "TB", "", "", "03/01/2024 09:00 AM", "03/01/2024 11:00 AM", "SB"]

/-- A 15-row sheet: rows 11 and 12 are data, 3 trailing filler rows. -/
def trimSheet15 : List (List String) :=
  List.replicate 10 padRow ++ [trimRowA, trimRowB] ++ List.replicate 3 padRow

/-- A 16-row sheet: rows 11 and 12 are data, 4 trailing filler rows. -/
def trimSheet16 : List (List String) :=
  List.replicate 10 padRow ++ [trimRowA, trimRowB] ++ List.replicate 4 padRow

/-- A row whose start date has month 13 (out of range). -/
def malformedDateRow : List String :=
  ["GX", "TX", "", "", "13/01/2024 09:00 AM", "13/01/2024 11:00 AM", "SX"]

/-- 16-row sheet processing exactly `malformedDateRow` then `trimRowA`. -/
def badDateSheet : List (List String) :=
  List.replicate 10 padRow ++ [malformedDateRow, trimRowA] ++ List.replicate 4 padRow

/-- The same sheet with the malformed row absent (15 rows). -/
def goodDateSheet : List (List String) :=
  List.replicate 10 padRow ++ [trimRowA] ++ List.replicate 4 padRow

/-- Reassigned-shift sample for the reconciliation-classification
witness. -/
def reassignedBefore : DialogueRow :=
  ⟨"G", "S", "Olga", "03/01/2024 09:00 AM", "03/01/2024 11:00 AM"⟩

def reassignedAfter : DialogueRow :=
  ⟨"G", "S", "Nils", "03/01/2024 09:00 AM", "03/01/2024 11:00 AM"⟩

/-- A consolidated row with parseable timestamps, for the persistence
idempotence witness. -/
def persistSampleRow : DialogueConsolidatedRow :=
  ⟨"A", "S1", "Pickup", "Alice", "03/01/2024 09:00 AM", "03/01/2024 11:00 AM"⟩

/-- Empty persistence state. -/
def emptyPersistDB : PersistDB := ⟨[], 1, []⟩

/-- The state after persisting `persistSampleRow` into the empty
state. -/
def persistSampleDB : PersistDB :=
  ⟨[("Alice", 1)], 2,
   [⟨1, ⟨2024, 3, 1, 9, 0⟩, ⟨2024, 3, 1, 11, 0⟩, "S1", "Pickup", "A"⟩]⟩

/-- "Dana" has one scheduled shift on day 1 and one matching eligible
invoice. -/
def danaSchedule : EffSchedule := ⟨"Dana", 1, "S1"⟩

def danaInvoice : EffInvoice := ⟨"S1", true⟩

/-- "Zed" appears in the fetched rows but the row's start day lies
outside the report range, so Zed's scheduled total is zero. -/
def zedSchedule : EffSchedule := ⟨"Zed", 50, "S9"⟩

/-- Invoicing record on the reporting day (cells 4, 5, 7, 8, 9 are
teacher, eligibility, activity start, activity end, shift). -/
def invoiceRecKeep : List String :=
  ["", "", "", "", "Tina", "Eligible", "", "03/01/2024 09:00",
   "03/01/2024 11:00", "S1"]

/-- Parseable invoicing record on a different day (March 2nd). -/
def invoiceRecSkip : List String :=
  ["", "", "", "", "Omar", "Not Eligible", "", "03/02/2024 09:00",
   "03/02/2024 11:00", "S2"]

/-- The parsed form of `invoiceRecKeep`. -/
def invoiceRowKeep : InvoicingRow :=
  ⟨"Tina", true, ⟨2024, 3, 1, 9, 0⟩, ⟨2024, 3, 1, 11, 0⟩, "S1"⟩

/-- The parsed form of `invoiceRecSkip`. -/
def invoiceRowSkip : InvoicingRow :=
  ⟨"Omar", false, ⟨2024, 3, 2, 9, 0⟩, ⟨2024, 3, 2, 11, 0⟩, "S2"⟩

/-- One fetched schedule row for the consolidated-report witness. -/
def reportSampleRow : CSchedule :=
  ⟨"Ann", "S1", "Pickup", ⟨2024, 3, 1, 9, 0⟩, ⟨2024, 3, 1, 11, 0⟩⟩

/-! # Claims -/

/-! ## C3 — the reassignment scenario -/

/-- C3, counterexample.  On `before = [{A, S1, Alice}]`,
`after = [{A, S1, Bob}]` (dates on the reporting day), reconciliation
does **not** yield `{S1, Alice, Dropped}` and
`{S1, Bob, DroppedAndPickedUp}`: the run returns `c3Actual`, which
contains no `Dropped` row at all and tags Bob `Internal Pickup`, not
`Dropped & Picked Up`. -/
theorem claim_c3_counterexample :
    reconcile pdA [beforeRowA] [afterRowA] = some c3Actual ∧
    (∀ r ∈ c3Actual, r.shift_type ≠ "Dropped") ∧
    DialogueConsolidatedRow.mk "A" "S1" "Dropped & Picked Up" "Bob"
      "03/01/2024 09:00 AM" "03/01/2024 11:00 AM" ∉ c3Actual := by
  decide

/-- C3, amended: on that input reconciliation yields exactly the two
rows `{S1, Bob, InternalPickup}` (the after row) and
`{S1, Alice, DroppedAndPickedUp}` (the before row), sorted with Alice
first. -/
theorem claim_c3_amended :
    reconcile pdA [beforeRowA] [afterRowA] =
      some [⟨"A", "S1", "Dropped & Picked Up", "Alice", "03/01/2024 09:00 AM",
              "03/01/2024 11:00 AM"⟩,
            ⟨"A", "S1", "Internal Pickup", "Bob", "03/01/2024 09:00 AM",
              "03/01/2024 11:00 AM"⟩] := by
  decide

/-! ## C5 — header/footer trimming -/

/-- The sheet loop's break test fires before processing, so from counter
`i` with `i + 4 ≤ total` it consumes exactly `total - 4 - i` rows. -/
theorem loopTake_eq_take (rs : List (List String)) :
    ∀ total i : Nat, i + 4 ≤ total → loopTake total i rs = rs.take (total - 4 - i) := by
  induction rs with
  | nil => intro total i _; simp [loopTake]
  | cons r rs ih =>
    intro total i h
    by_cases hb : i + 1 = total - 3
    · have h0 : total - 4 - i = 0 := by omega
      simp [loopTake, hb, h0]
    · have h2 : i + 1 + 4 ≤ total := by omega
      have hsplit : total - 4 - i = (total - 4 - (i + 1)) + 1 := by omega
      simp [loopTake, hb, hsplit, ih total (i + 1) h2]

/-- The pure mapping pass emits one row per processed sheet row. -/
theorem mapRowsCore_length (rows : List (List String)) :
    ∀ st : CarryState, ((mapRowsCore rows st).1).length = rows.length := by
  induction rows with
  | nil => intro st; simp [mapRowsCore]
  | cons r rs ih => intro st; simp [mapRowsCore, ih]

/-- C5, counterexample.  On a 15-row sheet the claim predicts that rows
11 through 12 (= `n - 3`) are mapped; the loop actually maps only row
11 — the break discards the last **four** rows, and the mapped output
has 1 row, not 2. -/
theorem claim_c5_counterexample :
    trimSheet trimSheet15 = [trimRowA] ∧
    trimSheet trimSheet15 ≠ (trimSheet15.drop 10).take (trimSheet15.length - 13) ∧
    ((mapRowsCore (trimSheet trimSheet15) initCarry).1).length = 1 ∧
    trimSheet15.length - 13 = 2 := by
  decide

/-- C5, amended: for every sheet with at least 14 rows, exactly the
first 10 rows and the last **4** rows are excluded — the loop processes
precisely rows 11 through `n - 4` in source order, and the mapping pass
emits exactly one row for each of them. -/
theorem claim_c5_amended (sheet : List (List String)) (st : CarryState)
    (h : 14 ≤ sheet.length) :
    trimSheet sheet = (sheet.drop 10).take (sheet.length - 14) ∧
    ((mapRowsCore (trimSheet sheet) st).1).length = sheet.length - 14 := by
  have hlen : (sheet.drop 10).length = sheet.length - 10 := by
    simp [List.length_drop]
  have h4 : 0 + 4 ≤ (sheet.drop 10).length := by omega
  have htrim : trimSheet sheet = (sheet.drop 10).take (sheet.length - 14) := by
    rw [trimSheet, loopTake_eq_take _ _ _ h4, hlen]
    congr 1
  refine ⟨htrim, ?_⟩
  rw [mapRowsCore_length, htrim]
  rw [List.length_take, hlen]
  omega

/-- C5 amended, witness: a concrete 16-row sheet maps exactly rows 11
and 12. -/
theorem claim_c5_amended_witness :
    trimSheet trimSheet16 = (trimSheet16.drop 10).take (trimSheet16.length - 14) ∧
    ((mapRowsCore (trimSheet trimSheet16) initCarry).1).length =
      trimSheet16.length - 14 :=
  claim_c5_amended trimSheet16 initCarry (by decide)

/-! ## C4 — carry-forward inheritance across the two sheets -/

theorem string_len_pos_iff (c : String) : 0 < c.length ↔ c ≠ "" := by
  constructor
  · intro h hc
    rw [hc] at h
    simp [String.length] at h
  · intro h
    obtain ⟨l⟩ := c
    cases l with
    | nil => exact absurd rfl h
    | cons a as => simp [String.length]

/-- The `len() > 0` blankness test of the source agrees with `≠ ""`. -/
theorem ite_len_ne (c d : String) :
    (if c.length > 0 then c else d) = (if c ≠ "" then c else d) := by
  by_cases hc : c = ""
  · subst hc; simp
  · simp [hc, (string_len_pos_iff c).mpr hc]

/-- The mapping pass's final temps are the fold of `updateCarry`. -/
theorem mapRowsCore_snd (rows : List (List String)) :
    ∀ st : CarryState, (mapRowsCore rows st).2 = stateAfter st rows := by
  induction rows with
  | nil => intro st; simp [mapRowsCore, stateAfter]
  | cons r rs ih => intro st; simp [mapRowsCore, stateAfter, ih, List.foldl_cons]

/-- Every field of the folded carry state is the last non-blank cell of
its column (or the incoming value). -/
theorem stateAfter_fields (rows : List (List String)) :
    ∀ st : CarryState,
      stateAfter st rows =
        ⟨carryAfter st.shift_group (rows.map (fun r => r.getD 0 "")),
         carryAfter st.shift (rows.map (fun r => r.getD 6 "")),
         carryAfter st.teacher_name (rows.map (fun r => r.getD 1 "")),
         carryAfter st.start_date (rows.map (fun r => r.getD 4 "")),
         carryAfter st.end_date (rows.map (fun r => r.getD 5 ""))⟩ := by
  induction rows with
  | nil => intro st; simp [stateAfter, carryAfter]
  | cons r rs ih =>
    intro st
    have hstep : stateAfter st (r :: rs) = stateAfter (updateCarry st r) rs := rfl
    have hca : ∀ (x : String) (xs : List String) (init : String),
        carryAfter init (x :: xs) = carryAfter (if x ≠ "" then x else init) xs := by
      intro x xs init; rfl
    rw [hstep, ih]
    simp only [List.map_cons, hca, updateCarry, ite_len_ne]

/-- The row emitted at position `i` is built from the temps after
folding the first `i + 1` processed rows. -/
theorem mapRowsCore_get (rows : List (List String)) :
    ∀ (st : CarryState) (i : Nat) (hi : i < ((mapRowsCore rows st).1).length),
      ((mapRowsCore rows st).1).get ⟨i, hi⟩ =
        (stateAfter st (rows.take (i + 1))).toRow := by
  induction rows with
  | nil => intro st i hi; simp [mapRowsCore] at hi
  | cons r rs ih =>
    intro st i hi
    match i with
    | 0 => simp [mapRowsCore, stateAfter, CarryState.toRow]
    | Nat.succ j =>
      have hj : j < ((mapRowsCore rs (updateCarry st r)).1).length := by
        have : ((mapRowsCore (r :: rs) st).1).length =
            ((mapRowsCore rs (updateCarry st r)).1).length + 1 := by
          simp [mapRowsCore]
        omega
      have := ih (updateCarry st r) j hj
      simpa [mapRowsCore, stateAfter] using this

/-- The interleaved sheet loop is the pure mapping pass followed by the
sequential date filter; the temps it returns ignore the filter. -/
theorem mapDialogueSheet_eq (pd : DT) (rows : List (List String)) :
    ∀ st : CarryState,
      mapDialogueSheet pd rows st =
        match filterDialogueRows pd (mapRowsCore rows st).1 with
        | none => none
        | some keep => some (keep, (mapRowsCore rows st).2) := by
  induction rows with
  | nil => intro st; simp [mapDialogueSheet, mapRowsCore, filterDialogueRows]
  | cons r rs ih =>
    intro st
    simp only [mapDialogueSheet, mapRowsCore, filterDialogueRows]
    cases hk : keepDialogueRow pd ((updateCarry st r).toRow) with
    | none => simp [hk]
    | some keep =>
      rw [ih (updateCarry st r)]
      cases hf : filterDialogueRows pd ((mapRowsCore rs (updateCarry st r)).1) with
      | none => simp [hk, hf]
      | some out => simp [hk, hf]

/-- C4, counterexample.  Two concrete sheets: the only processed row of
the second sheet has a **blank** `shift_group` cell, yet its mapped row
carries `shift_group = "X"`, the value inherited from the first sheet's
row — the temps are not reset between sheets.  Mapping the second sheet
from fresh temps would have emitted `""` instead. -/
theorem claim_c4_counterexample :
    mapRun pdA carrySheetOne carrySheetTwo =
      some ([⟨"X", "S1", "T1", "03/01/2024 09:00 AM", "03/01/2024 11:00 AM"⟩],
            [⟨"X", "S2", "T2", "03/01/2024 09:00 AM", "03/01/2024 11:00 AM"⟩]) ∧
    trimSheet carrySheetTwo = [sheetTwoDataRow] ∧
    sheetTwoDataRow.getD 0 "" = "" ∧
    mapDialogueSheet pdA (trimSheet carrySheetTwo) initCarry =
      some ([⟨"", "S2", "T2", "03/01/2024 09:00 AM", "03/01/2024 11:00 AM"⟩],
            ⟨"", "S2", "T2", "03/01/2024 09:00 AM", "03/01/2024 11:00 AM"⟩) := by
  decide

/-- C4, amended: the carry-forward temps are initialised once before the
first sheet and threaded, unreset, into the second sheet's mapping
(whose start state is the fold of the first sheet's processed rows); and
within any mapping pass the row emitted at position `i` holds, per
inherited column, the last non-blank cell seen for that column up to and
including row `i`, starting from the incoming temps — so a blank cell at
the start of the second sheet inherits the value carried over from the
first sheet. -/
theorem claim_c4_amended (pd : DT) (s1 s2 : List (List String)) :
    (mapRun pd s1 s2 =
      match filterDialogueRows pd (mapRowsCore (trimSheet s1) initCarry).1,
            filterDialogueRows pd
              (mapRowsCore (trimSheet s2)
                (stateAfter initCarry (trimSheet s1))).1 with
      | some keep1, some keep2 => some (keep1, keep2)
      | _, _ => none) ∧
    (∀ (st : CarryState) (rows : List (List String)) (i : Nat)
        (hi : i < ((mapRowsCore rows st).1).length),
      ((mapRowsCore rows st).1).get ⟨i, hi⟩ =
        DialogueRow.mk
          (carryAfter st.shift_group ((rows.take (i + 1)).map (fun r => r.getD 0 "")))
          (carryAfter st.shift ((rows.take (i + 1)).map (fun r => r.getD 6 "")))
          (carryAfter st.teacher_name ((rows.take (i + 1)).map (fun r => r.getD 1 "")))
          (carryAfter st.start_date ((rows.take (i + 1)).map (fun r => r.getD 4 "")))
          (carryAfter st.end_date ((rows.take (i + 1)).map (fun r => r.getD 5 "")))) := by
  constructor
  · simp only [mapRun, mapDialogueSheet_eq, mapRowsCore_snd]
    cases h1 : filterDialogueRows pd (mapRowsCore (trimSheet s1) initCarry).1 with
    | none => rfl
    | some keep1 =>
      cases h2 : filterDialogueRows pd
          (mapRowsCore (trimSheet s2) (stateAfter initCarry (trimSheet s1))).1 with
      | none => simp [h2]
      | some keep2 => simp [h2]
  · intro st rows i hi
    rw [mapRowsCore_get, stateAfter_fields]
    rfl

/-- C4 amended, witness at the concrete two-sheet run: the second
sheet's only emitted row equals the column-wise carry over the first
sheet's rows followed by its own. -/
theorem claim_c4_amended_witness :
    (mapRun pdA carrySheetOne carrySheetTwo =
      match filterDialogueRows pdA (mapRowsCore (trimSheet carrySheetOne) initCarry).1,
            filterDialogueRows pdA
              (mapRowsCore (trimSheet carrySheetTwo)
                (stateAfter initCarry (trimSheet carrySheetOne))).1 with
      | some keep1, some keep2 => some (keep1, keep2)
      | _, _ => none) ∧
    ((mapRowsCore (trimSheet carrySheetTwo)
        (stateAfter initCarry (trimSheet carrySheetOne))).1).get ⟨0, by decide⟩ =
      DialogueRow.mk
        (carryAfter (stateAfter initCarry (trimSheet carrySheetOne)).shift_group
          (((trimSheet carrySheetTwo).take 1).map (fun r => r.getD 0 "")))
        (carryAfter (stateAfter initCarry (trimSheet carrySheetOne)).shift
          (((trimSheet carrySheetTwo).take 1).map (fun r => r.getD 6 "")))
        (carryAfter (stateAfter initCarry (trimSheet carrySheetOne)).teacher_name
          (((trimSheet carrySheetTwo).take 1).map (fun r => r.getD 1 "")))
        (carryAfter (stateAfter initCarry (trimSheet carrySheetOne)).start_date
          (((trimSheet carrySheetTwo).take 1).map (fun r => r.getD 4 "")))
        (carryAfter (stateAfter initCarry (trimSheet carrySheetOne)).end_date
          (((trimSheet carrySheetTwo).take 1).map (fun r => r.getD 5 ""))) :=
  ⟨(claim_c4_amended pdA carrySheetOne carrySheetTwo).1,
   (claim_c4_amended pdA carrySheetOne carrySheetTwo).2
     (stateAfter initCarry (trimSheet carrySheetOne))
     (trimSheet carrySheetTwo) 0 (by decide)⟩

/-! ## C8 — malformed dates abort the whole batch -/

/-- A single unfilterable row poisons the sequential date filter. -/
theorem filterDialogueRows_none (pd : DT) (l : List DialogueRow)
    (h : ∃ row ∈ l, keepDialogueRow pd row = none) :
    filterDialogueRows pd l = none := by
  induction l with
  | nil => simp at h
  | cons row rest ih =>
    obtain ⟨r, hr, hk⟩ := h
    rcases List.mem_cons.mp hr with h1 | h1
    · subst h1
      simp [filterDialogueRows, hk]
    · cases hk0 : keepDialogueRow pd row with
      | none => simp [filterDialogueRows, hk0]
      | some keep => simp [filterDialogueRows, hk0, ih ⟨r, h1, hk⟩]

/-- C8, counterexample.  A 16-row sheet whose processed rows are a
month-13 row followed by a well-formed row: mapping returns `none` (the
whole batch dies), even though the well-formed row alone maps fine —
the malformed date does **not** abort only its own row. -/
theorem claim_c8_counterexample :
    trimSheet badDateSheet = [malformedDateRow, trimRowA] ∧
    mapDialogueSheet pdA (trimSheet badDateSheet) initCarry = none ∧
    mapDialogueSheet pdA (trimSheet goodDateSheet) initCarry =
      some ([⟨"GA", "SA", "TA", "03/01/2024 09:00 AM", "03/01/2024 11:00 AM"⟩],
            ⟨"GA", "SA", "TA", "03/01/2024 09:00 AM", "03/01/2024 11:00 AM"⟩) := by
  decide

/-- C8, amended: a row whose date text is unparsable or out of range
(wrong segment count, wrong separator, or month > 12) panics the
spawned task — the sheet mapping produces no rows at all and every
remaining row of the batch is lost, instead of only that row being
excluded. -/
theorem claim_c8_amended (pd : DT) (rows : List (List String)) (st : CarryState)
    (h : ∃ row ∈ (mapRowsCore rows st).1, keepDialogueRow pd row = none) :
    mapDialogueSheet pd rows st = none := by
  rw [mapDialogueSheet_eq, filterDialogueRows_none pd _ h]

/-- C8 amended, witness: the malformed-month sheet satisfies the
existence hypothesis, and its whole batch indeed maps to `none`. -/
theorem claim_c8_amended_witness :
    mapDialogueSheet pdA (trimSheet badDateSheet) initCarry = none :=
  claim_c8_amended pdA (trimSheet badDateSheet) initCarry (by decide)

/-! ## C2 — a reassigned shift produces exactly two rows -/

/-- With pairwise-distinct keys, filtering by a member's key yields
exactly that member. -/
theorem filter_key_single {α β : Type} [DecidableEq β] (f : α → β) :
    ∀ (l : List α) (x : α), x ∈ l → (l.map f).Nodup →
      l.filter (fun r => f r = f x) = [x] := by
  intro l
  induction l with
  | nil => intro x hx _; exact absurd hx (List.not_mem_nil x)
  | cons y t ih =>
    intro x hx hnd
    rw [List.map_cons, List.nodup_cons] at hnd
    rcases List.mem_cons.mp hx with hxy | hxt
    · subst hxy
      have hnil : t.filter (fun r => f r = f x) = [] := by
        rw [List.filter_eq_nil_iff]
        intro a ha hfa
        have hfa2 : f a = f x := by simpa using hfa
        exact hnd.1 (hfa2 ▸ List.mem_map.mpr ⟨a, ha, rfl⟩)
      simp [List.filter_cons, hnil]
    · have hne : f y ≠ f x := fun he =>
        hnd.1 (he ▸ List.mem_map.mpr ⟨x, hxt, rfl⟩)
      simp [List.filter_cons, hne, ih x hxt hnd.2]

/-- With pairwise-distinct keys, `find?` by a member's key yields
exactly that member. -/
theorem find_key_single {α β : Type} [DecidableEq β] (f : α → β) :
    ∀ (l : List α) (x : α), x ∈ l → (l.map f).Nodup →
      l.find? (fun r => f r = f x) = some x := by
  intro l
  induction l with
  | nil => intro x hx _; exact absurd hx (List.not_mem_nil x)
  | cons y t ih =>
    intro x hx hnd
    rw [List.map_cons, List.nodup_cons] at hnd
    rcases List.mem_cons.mp hx with hxy | hxt
    · subst hxy
      simp [List.find?_cons]
    · have hne : f y ≠ f x := fun he =>
        hnd.1 (he ▸ List.mem_map.mpr ⟨x, hxt, rfl⟩)
      simp [List.find?_cons, hne, ih x hxt hnd.2]

/-- Association-list lookup by a present key with pairwise-distinct
keys. -/
theorem find_key_assoc {β γ : Type} [DecidableEq β] :
    ∀ (ps : List (β × γ)) (k : β) (v : γ), (k, v) ∈ ps →
      (ps.map Prod.fst).Nodup → ps.find? (fun p => p.1 = k) = some (k, v) := by
  intro ps
  induction ps with
  | nil => intro k v hm _; exact absurd hm (List.not_mem_nil _)
  | cons y t ih =>
    intro k v hm hnd
    rw [List.map_cons, List.nodup_cons] at hnd
    rcases List.mem_cons.mp hm with hy | ht
    · subst hy
      simp [List.find?_cons]
    · have hne : y.1 ≠ k := fun he =>
        hnd.1 (by
          have : k ∈ t.map Prod.fst := List.mem_map.mpr ⟨(k, v), ht, rfl⟩
          exact he ▸ this)
      simp [List.find?_cons, hne, ih k v ht hnd.2]

/-- The `HashMap`-collected previous-holder map sends a present shift
(unique among the first snapshot's shifts) to its teacher. -/
theorem previousShiftTeacher_eq (firstRows : List DialogueRow)
    (fr : DialogueRow) (hfr : fr ∈ firstRows)
    (hnd : (firstRows.map (·.shift)).Nodup) :
    previousShiftTeacher firstRows fr.shift = some fr.teacher_name := by
  unfold previousShiftTeacher
  have hmem : (fr.shift, fr.teacher_name) ∈
      (firstRows.map (fun r => (r.shift, r.teacher_name))).reverse := by
    rw [List.mem_reverse]
    exact List.mem_map.mpr ⟨fr, hfr, rfl⟩
  have hkeys : (((firstRows.map (fun r => (r.shift, r.teacher_name))).reverse).map
      Prod.fst).Nodup := by
    rw [List.map_reverse, List.map_map, List.nodup_reverse]
    exact hnd
  rw [find_key_assoc _ fr.shift fr.teacher_name hmem hkeys]
  rfl

/-- Filtering a tagged category segment by a shift label, pushed through
the `map`. -/
theorem seg_reduce (p : DialogueRow → Bool) (g ty key : String)
    (rows : List DialogueRow) :
    ((rows.filter p).map (mkConsolidated g ty)).filter (fun r => r.shift = key) =
      (rows.filter (fun r => decide (r.shift = key) && p r)).map
        (mkConsolidated g ty) := by
  rw [List.filter_map, List.filter_filter]
  rfl

/-- A category segment contributes nothing for a shift label that fails
its predicate. -/
theorem seg_nil (p : DialogueRow → Bool) (g ty key : String)
    (rows : List DialogueRow) (h : ∀ a ∈ rows, a.shift = key → p a = false) :
    ((rows.filter p).map (mkConsolidated g ty)).filter (fun r => r.shift = key) =
      [] := by
  rw [seg_reduce]
  have hnil : rows.filter (fun r => decide (r.shift = key) && p r) = [] := by
    rw [List.filter_eq_nil_iff]
    intro a ha hp
    simp only [Bool.and_eq_true, decide_eq_true_eq] at hp
    rw [h a ha hp.1] at hp
    exact absurd hp.2 (by simp)
  rw [hnil]
  rfl

/-- A category segment containing a uniquely-held shift label
contributes exactly the corresponding tagged row. -/
theorem seg_single (p : DialogueRow → Bool) (g ty key : String)
    (rows : List DialogueRow) (x : DialogueRow)
    (hfilter : rows.filter (fun r => decide (r.shift = key)) = [x])
    (hall : ∀ a ∈ rows, a.shift = key → p a = true) :
    ((rows.filter p).map (mkConsolidated g ty)).filter (fun r => r.shift = key) =
      [mkConsolidated g ty x] := by
  rw [seg_reduce]
  have hsame : rows.filter (fun r => decide (r.shift = key) && p r) =
      rows.filter (fun r => decide (r.shift = key)) := by
    refine List.filter_congr ?_
    intro a ha
    by_cases hk : a.shift = key
    · simp [hk, hall a ha hk]
    · simp [hk]
  rw [hsame, hfilter]
  rfl

/-- C2: for a shift present in both snapshots of a group (shift labels
unique per snapshot) whose teacher changed, the group's reconciled
output contains exactly two rows with that shift label: the after row
tagged `Internal Pickup` carrying the new teacher, then the before row
tagged `Dropped & Picked Up` carrying the old teacher. -/
theorem claim_c2 (g : String) (firstRows secondRows : List DialogueRow)
    (fr sr : DialogueRow) (hfr : fr ∈ firstRows) (hsr : sr ∈ secondRows)
    (hshift : sr.shift = fr.shift)
    (hnd1 : (firstRows.map (·.shift)).Nodup)
    (hnd2 : (secondRows.map (·.shift)).Nodup)
    (ht : sr.teacher_name ≠ fr.teacher_name) :
    (consolidateGroup g firstRows secondRows).filter
        (fun r => r.shift = fr.shift) =
      [⟨g, fr.shift, "Internal Pickup", sr.teacher_name, sr.start_date, sr.end_date⟩,
       ⟨g, fr.shift, "Dropped & Picked Up", fr.teacher_name, fr.start_date, fr.end_date⟩] := by
  have hsF : fr.shift ∈ shiftsOf firstRows := List.mem_map.mpr ⟨fr, hfr, rfl⟩
  have hsS : fr.shift ∈ shiftsOf secondRows := by
    exact List.mem_map.mpr ⟨sr, hsr, hshift⟩
  have hfilterF : firstRows.filter (fun r => r.shift = fr.shift) = [fr] :=
    filter_key_single (·.shift) firstRows fr hfr hnd1
  have hfilterS : secondRows.filter (fun r => r.shift = fr.shift) = [sr] := by
    have h0 := filter_key_single (·.shift) secondRows sr hsr hnd2
    simp only [hshift] at h0
    exact h0
  have hfind : secondRows.find? (fun r2 => r2.shift = fr.shift) = some sr := by
    have h0 := find_key_single (·.shift) secondRows sr hsr hnd2
    simp only [hshift] at h0
    exact h0
  have hprev : previousShiftTeacher firstRows fr.shift = some fr.teacher_name :=
    previousShiftTeacher_eq firstRows fr hfr hnd1
  -- membership of the shift in each category list
  have hnotNew : fr.shift ∉ newShifts firstRows secondRows := by
    intro hmem
    rw [newShifts, List.mem_filter] at hmem
    exact absurd ((List.elem_iff).mpr hsF) (by simpa using hmem.2)
  have hnotLost : fr.shift ∉ lostShifts firstRows secondRows := by
    intro hmem
    rw [lostShifts, List.mem_filter] at hmem
    exact absurd ((List.elem_iff).mpr hsS) (by simpa using hmem.2)
  have hPick : fr.shift ∈ pickedUpShifts firstRows secondRows := by
    rw [pickedUpShifts]
    refine List.mem_map.mpr ⟨sr, List.mem_filter.mpr ⟨hsr, ?_⟩, hshift⟩
    rw [hshift, hprev]
    simpa using Ne.symm ht
  have hLbpu : fr.shift ∈ lostButPickedUpShifts firstRows secondRows := by
    rw [lostButPickedUpShifts]
    refine List.mem_map.mpr ⟨fr, List.mem_filter.mpr ⟨hfr, ?_⟩, rfl⟩
    rw [if_pos ((List.elem_iff).mpr hsS), hfind]
    simpa using ht
  -- reduce each of the five appended category segments
  rw [consolidateGroup]
  rw [List.filter_append, List.filter_append, List.filter_append,
    List.filter_append]
  rw [seg_nil _ g "Pickup" fr.shift secondRows (fun a ha hk => by
    cases hc : (newShifts firstRows secondRows).contains a.shift with
    | false => rfl
    | true => exact absurd (List.elem_iff.mp (by rw [← hk]; exact hc)) hnotNew)]
  rw [seg_single _ g "Internal Pickup" fr.shift secondRows sr hfilterS
    (fun a ha hk => by rw [hk]; exact List.elem_iff.mpr hPick)]
  rw [seg_nil _ g "Dropped" fr.shift firstRows (fun a ha hk => by
    cases hc : (lostShifts firstRows secondRows).contains a.shift with
    | false => rfl
    | true => exact absurd (List.elem_iff.mp (by rw [← hk]; exact hc)) hnotLost)]
  rw [seg_single _ g "Dropped & Picked Up" fr.shift firstRows fr hfilterF
    (fun a ha hk => by rw [hk]; exact List.elem_iff.mpr hLbpu)]
  rw [seg_nil _ g "-" fr.shift secondRows (fun a ha hk => by
    simp only [decide_eq_false_iff_not]
    intro hconj
    exact hconj.1 (by rw [hk]; exact List.elem_iff.mpr hPick))]
  simp [mkConsolidated, hshift]

/-- C2, witness: the one-row reassignment sample satisfies every
hypothesis, and its group output filtered to the shift is exactly the
`Internal Pickup` / `Dropped & Picked Up` pair. -/
theorem claim_c2_witness :
    (consolidateGroup "G" [reassignedBefore] [reassignedAfter]).filter
        (fun r => r.shift = reassignedBefore.shift) =
      [⟨"G", reassignedBefore.shift, "Internal Pickup",
        reassignedAfter.teacher_name, reassignedAfter.start_date,
        reassignedAfter.end_date⟩,
       ⟨"G", reassignedBefore.shift, "Dropped & Picked Up",
        reassignedBefore.teacher_name, reassignedBefore.start_date,
        reassignedBefore.end_date⟩] :=
  claim_c2 "G" [reassignedBefore] [reassignedAfter] reassignedBefore
    reassignedAfter (by decide) (by decide) (by decide) (by decide) (by decide)
    (by decide)

/-! ## C9 — only same-day invoicing rows reach persistence -/

/-- Every row the invoicing mapping emits is on the processing day and
comes from a parsed record of the batch. -/
theorem mapInvoicing_mem (pd : DT) :
    ∀ (records : List (List String)) (rows : List InvoicingRow),
      mapInvoicing pd records = some rows →
      ∀ r ∈ rows, sameDay r.activity_start pd = true ∧
        ∃ rec ∈ records, parseInvoiceRecord rec = some r := by
  intro records
  induction records with
  | nil =>
    intro rows h r hr
    simp [mapInvoicing] at h
    subst h
    exact absurd hr (List.not_mem_nil r)
  | cons rec rest ih =>
    intro rows h r hr
    rw [mapInvoicing] at h
    cases hp : parseInvoiceRecord rec with
    | none => rw [hp] at h; exact absurd h (by simp)
    | some row =>
      rw [hp] at h
      cases hm : mapInvoicing pd rest with
      | none => rw [hm] at h; exact absurd h (by simp)
      | some out =>
        rw [hm] at h
        simp only [Option.some.injEq] at h
        subst h
        by_cases hd : sameDay row.activity_start pd
        · rw [if_pos hd] at hr
          rcases List.mem_cons.mp hr with hre | hro
          · subst hre
            exact ⟨hd, rec, List.mem_cons_self rec rest, hp⟩
          · obtain ⟨hsd, rec2, hrec2, hp2⟩ := ih out hm r hro
            exact ⟨hsd, rec2, List.mem_cons_of_mem rec hrec2, hp2⟩
        · rw [if_neg hd] at hr
          obtain ⟨hsd, rec2, hrec2, hp2⟩ := ih out hm r hr
          exact ⟨hsd, rec2, List.mem_cons_of_mem rec hrec2, hp2⟩

/-- The upsert loop counts every processed row exactly once, as inserted
or updated; nothing is skipped when storage does not fail. -/
theorem persistInvoices_counts :
    ∀ (rows : List InvoicingRow) (db : InvDB),
      (persistInvoices db rows).2.inserted + (persistInvoices db rows).2.updated =
        rows.length ∧ (persistInvoices db rows).2.skipped = 0 := by
  intro rows
  induction rows with
  | nil => intro db; simp [persistInvoices]
  | cons row rest ih =>
    intro db
    rw [persistInvoices]
    cases hl : lookupInvoice db (invKeyOf row) with
    | some e =>
      have h2 := ih (updateInvoice (invKeyOf row) row.eligible db)
      rcases hrec : persistInvoices (updateInvoice (invKeyOf row) row.eligible db)
        rest with ⟨db1, c⟩
      rw [hrec] at h2
      simp only [hrec, List.length_cons]
      dsimp only at h2 ⊢
      omega
    | none =>
      have h2 := ih (db ++ [(invKeyOf row, row.eligible)])
      rcases hrec : persistInvoices (db ++ [(invKeyOf row, row.eligible)])
        rest with ⟨db1, c⟩
      rw [hrec] at h2
      simp only [hrec, List.length_cons]
      dsimp only at h2 ⊢
      omega

/-- Updating one key leaves lookups of other keys unchanged. -/
theorem lookupInvoice_update_ne (k1 k : InvKey) (e : Bool) (hne : k1 ≠ k) :
    ∀ db : InvDB, lookupInvoice (updateInvoice k1 e db) k = lookupInvoice db k := by
  intro db
  induction db with
  | nil => rfl
  | cons p ps ih =>
    by_cases hp : p.1 = k1
    · rw [updateInvoice, if_pos hp]
      have hpk : ¬ p.1 = k := fun he => hne (hp ▸ he ▸ rfl)
      simp [lookupInvoice, List.find?_cons, hpk]
    · rw [updateInvoice, if_neg hp]
      by_cases hpk : p.1 = k
      · simp [lookupInvoice, List.find?_cons, hpk]
      · simp only [lookupInvoice, List.find?_cons] at ih ⊢
        simp [hpk, ih]

/-- Appending a row of another key leaves lookups unchanged. -/
theorem lookupInvoice_append_ne (k1 k : InvKey) (e : Bool) (hne : k1 ≠ k)
    (db : InvDB) : lookupInvoice (db ++ [(k1, e)]) k = lookupInvoice db k := by
  have h1 : List.find? (fun p => p.1 = k) [(k1, e)] = none := by
    simp [List.find?_cons, hne]
  simp only [lookupInvoice, List.find?_append, h1]
  cases List.find? (fun p => decide (p.1 = k)) db <;> rfl

/-- The whole upsert loop leaves lookups of keys held by none of its
rows unchanged. -/
theorem persistInvoices_untouched (k : InvKey) :
    ∀ (rows : List InvoicingRow) (db : InvDB),
      (∀ r ∈ rows, invKeyOf r ≠ k) →
      lookupInvoice (persistInvoices db rows).1 k = lookupInvoice db k := by
  intro rows
  induction rows with
  | nil => intro db _; rfl
  | cons row rest ih =>
    intro db hall
    have hk : invKeyOf row ≠ k := hall row (List.mem_cons_self row rest)
    have hrest : ∀ r ∈ rest, invKeyOf r ≠ k :=
      fun r hr => hall r (List.mem_cons_of_mem row hr)
    rw [persistInvoices]
    cases hl : lookupInvoice db (invKeyOf row) with
    | some e =>
      simp only []
      rw [ih (updateInvoice (invKeyOf row) row.eligible db) hrest,
        lookupInvoice_update_ne (invKeyOf row) k row.eligible hk]
    | none =>
      simp only []
      rw [ih (db ++ [(invKeyOf row, row.eligible)]) hrest,
        lookupInvoice_append_ne (invKeyOf row) k row.eligible hk]

/-- C9: when the invoicing mapping for reporting date `pd` succeeds,
every retained row is on day `pd`; the upsert loop counts exactly the
retained rows (each inserted or updated, none skipped); and any parsed
record of the batch whose `activity_start` is **not** on day `pd` is
excluded: it is not among the retained rows, and the invoice table at
its composite key is untouched — neither inserted nor updated. -/
theorem claim_c9 (pd : DT) (records : List (List String))
    (rows : List InvoicingRow) (db : InvDB)
    (h : mapInvoicing pd records = some rows) :
    (∀ r ∈ rows, sameDay r.activity_start pd = true) ∧
    ((persistInvoices db rows).2.inserted + (persistInvoices db rows).2.updated =
      rows.length ∧ (persistInvoices db rows).2.skipped = 0) ∧
    (∀ rec ∈ records, ∀ q : InvoicingRow, parseInvoiceRecord rec = some q →
      sameDay q.activity_start pd = false →
      q ∉ rows ∧
      lookupInvoice (persistInvoices db rows).1 (invKeyOf q) =
        lookupInvoice db (invKeyOf q)) := by
  refine ⟨fun r hr => (mapInvoicing_mem pd records rows h r hr).1,
    persistInvoices_counts rows db, ?_⟩
  intro rec hrec q hq hnot
  have hnotmem : q ∉ rows := fun hmem => by
    have := (mapInvoicing_mem pd records rows h q hmem).1
    rw [this] at hnot
    exact Bool.true_eq_false.mp hnot
  refine ⟨hnotmem, ?_⟩
  refine persistInvoices_untouched (invKeyOf q) rows db ?_
  intro r hr he
  have hsd := (mapInvoicing_mem pd records rows h r hr).1
  have hstart : r.activity_start = q.activity_start :=
    congrArg InvKey.activity_start he
  rw [hstart] at hsd
  rw [hsd] at hnot
  exact Bool.true_eq_false.mp hnot

/-- C9, witness: a two-record batch (one on the reporting day, one
parseable but on March 2nd) maps to a single retained row; the March-2nd
row is excluded, uncounted and untouched in the table. -/
theorem claim_c9_witness :
    (∀ r ∈ [invoiceRowKeep], sameDay r.activity_start pdA = true) ∧
    ((persistInvoices [] [invoiceRowKeep]).2.inserted +
      (persistInvoices [] [invoiceRowKeep]).2.updated = [invoiceRowKeep].length ∧
      (persistInvoices [] [invoiceRowKeep]).2.skipped = 0) ∧
    (∀ rec ∈ [invoiceRecKeep, invoiceRecSkip], ∀ q : InvoicingRow,
      parseInvoiceRecord rec = some q →
      sameDay q.activity_start pdA = false →
      q ∉ [invoiceRowKeep] ∧
      lookupInvoice (persistInvoices [] [invoiceRowKeep]).1 (invKeyOf q) =
        lookupInvoice [] (invKeyOf q)) :=
  claim_c9 pdA [invoiceRecKeep, invoiceRecSkip] [invoiceRowKeep] [] (by decide)

/-! ## C1 — persistence is idempotent -/

theorem find?_append_some {α : Type} {p : α → Bool} {l1 l2 : List α} {x : α}
    (h : l1.find? p = some x) : (l1 ++ l2).find? p = some x := by
  rw [List.find?_append, h]
  rfl

theorem dbExtends_refl (db : PersistDB) : dbExtends db db :=
  ⟨fun _ _ h => h, fun _ h => h⟩

theorem dbExtends_trans {db3 db2 db1 : PersistDB} (h32 : dbExtends db3 db2)
    (h21 : dbExtends db2 db1) : dbExtends db3 db1 :=
  ⟨fun n i h => h32.1 n i (h21.1 n i h), fun k h => h32.2 k (h21.2 k h)⟩

/-- Teacher lookups survive appending a teacher row. -/
theorem lookupTeacher_append (db : PersistDB) (p : String × Nat) (n : String)
    (i : Nat) (h : lookupTeacher db n = some i) :
    (db.teachers ++ [p]).find? (fun q => q.1 = n) =
      db.teachers.find? (fun q => q.1 = n) := by
  rw [lookupTeacher] at h
  cases hf : db.teachers.find? (fun q => q.1 = n) with
  | none => rw [hf] at h; exact absurd h (by simp)
  | some q => rw [find?_append_some hf]

/-- Each persistence step only appends: the state extends. -/
theorem persistStep_extends (db db' : PersistDB) (row : DialogueConsolidatedRow)
    (o : Bool × Bool) (h : persistStep db row = some (db', o)) :
    dbExtends db' db := by
  rw [persistStep] at h
  cases hs : parse12Swapped row.start_date with
  | none => rw [hs] at h; exact absurd h (by simp)
  | some sd =>
    cases he : parse12Swapped row.end_date with
    | none => rw [hs, he] at h; exact absurd h (by simp)
    | some ed =>
      rw [hs, he] at h
      dsimp only at h
      cases hl : lookupTeacher db row.teacher_name with
      | some i =>
        rw [hl] at h
        dsimp only at h
        by_cases hf : scheduleFound db
            ⟨i, sd, ed, row.shift, row.shift_type, row.shift_group⟩
        · rw [if_pos hf] at h
          obtain ⟨hdb, _⟩ := Prod.mk.injEq .. ▸ (Option.some.injEq .. ▸ h)
          exact hdb ▸ dbExtends_refl db
        · rw [if_neg hf] at h
          obtain ⟨hdb, _⟩ := Prod.mk.injEq .. ▸ (Option.some.injEq .. ▸ h)
          refine hdb ▸ ⟨fun n j hj => hj, fun k hk => ?_⟩
          exact List.mem_append.mpr (Or.inl hk)
      | none =>
        rw [hl] at h
        dsimp only at h
        by_cases hf : scheduleFound
            { db with
              teachers := db.teachers ++ [(row.teacher_name, db.nextTeacherId)],
              nextTeacherId := db.nextTeacherId + 1 }
            ⟨db.nextTeacherId, sd, ed, row.shift, row.shift_type, row.shift_group⟩
        · rw [if_pos hf] at h
          obtain ⟨hdb, _⟩ := Prod.mk.injEq .. ▸ (Option.some.injEq .. ▸ h)
          refine hdb ▸ ⟨fun n j hj => ?_, fun k hk => hk⟩
          show ((db.teachers ++ [(row.teacher_name, db.nextTeacherId)]).find?
            (fun q => q.1 = n)).map (·.2) = some j
          rw [lookupTeacher] at hj
          cases hq : db.teachers.find? (fun q => q.1 = n) with
          | none => rw [hq] at hj; exact absurd hj (by simp)
          | some q => rw [find?_append_some hq, ← hq]; exact hj
        · rw [if_neg hf] at h
          obtain ⟨hdb, _⟩ := Prod.mk.injEq .. ▸ (Option.some.injEq .. ▸ h)
          refine hdb ▸ ⟨fun n j hj => ?_, fun k hk => List.mem_append.mpr (Or.inl hk)⟩
          show ((db.teachers ++ [(row.teacher_name, db.nextTeacherId)]).find?
            (fun q => q.1 = n)).map (·.2) = some j
          rw [lookupTeacher] at hj
          cases hq : db.teachers.find? (fun q => q.1 = n) with
          | none => rw [hq] at hj; exact absurd hj (by simp)
          | some q => rw [find?_append_some hq, ← hq]; exact hj

/-- The whole loop extends the state. -/
theorem persistRows_extends :
    ∀ (rows : List DialogueConsolidatedRow) (db db2 : PersistDB)
      (c : PersistCounters), persistRows db rows = some (db2, c) →
      dbExtends db2 db := by
  intro rows
  induction rows with
  | nil =>
    intro db db2 c h
    simp [persistRows] at h
    exact h.1 ▸ dbExtends_refl db
  | cons row rest ih =>
    intro db db2 c h
    rw [persistRows] at h
    cases hstep : persistStep db row with
    | none => rw [hstep] at h; exact absurd h (by simp)
    | some out =>
      obtain ⟨db1, o⟩ := out
      rw [hstep] at h
      dsimp only at h
      cases hrest : persistRows db1 rest with
      | none => rw [hrest] at h; exact absurd h (by simp)
      | some out2 =>
        obtain ⟨db2x, c2⟩ := out2
        rw [hrest] at h
        dsimp only at h
        obtain ⟨hdb, _⟩ := Prod.mk.injEq .. ▸ (Option.some.injEq .. ▸ h)
        exact hdb ▸ dbExtends_trans (ih db1 db2x c2 hrest)
          (persistStep_extends db db1 row o hstep)

/-- After a successful step, the row's teacher and full schedule key are
present in the resulting state. -/
theorem persistStep_establishes (db db' : PersistDB)
    (row : DialogueConsolidatedRow) (o : Bool × Bool)
    (h : persistStep db row = some (db', o)) :
    ∃ sd ed i, parse12Swapped row.start_date = some sd ∧
      parse12Swapped row.end_date = some ed ∧
      lookupTeacher db' row.teacher_name = some i ∧
      (⟨i, sd, ed, row.shift, row.shift_type, row.shift_group⟩ : ScheduleKey) ∈
        db'.schedules := by
  rw [persistStep] at h
  cases hs : parse12Swapped row.start_date with
  | none => rw [hs] at h; exact absurd h (by simp)
  | some sd =>
    cases he : parse12Swapped row.end_date with
    | none => rw [hs, he] at h; exact absurd h (by simp)
    | some ed =>
      rw [hs, he] at h
      dsimp only at h
      refine ⟨sd, ed, ?_⟩
      cases hl : lookupTeacher db row.teacher_name with
      | some i =>
        rw [hl] at h
        dsimp only at h
        refine ⟨i, rfl, rfl, ?_⟩
        by_cases hf : scheduleFound db
            ⟨i, sd, ed, row.shift, row.shift_type, row.shift_group⟩
        · rw [if_pos hf] at h
          obtain ⟨hdb, _⟩ := Prod.mk.injEq .. ▸ (Option.some.injEq .. ▸ h)
          subst hdb
          exact ⟨hl, List.elem_iff.mp hf⟩
        · rw [if_neg hf] at h
          obtain ⟨hdb, _⟩ := Prod.mk.injEq .. ▸ (Option.some.injEq .. ▸ h)
          subst hdb
          exact ⟨hl, List.mem_append.mpr (Or.inr (List.mem_singleton.mpr rfl))⟩
      | none =>
        rw [hl] at h
        dsimp only at h
        refine ⟨db.nextTeacherId, rfl, rfl, ?_⟩
        have hlook : lookupTeacher
            { db with
              teachers := db.teachers ++ [(row.teacher_name, db.nextTeacherId)],
              nextTeacherId := db.nextTeacherId + 1 } row.teacher_name =
            some db.nextTeacherId := by
          rw [lookupTeacher] at hl ⊢
          have hfn : db.teachers.find? (fun q => q.1 = row.teacher_name) = none := by
            cases hq : db.teachers.find? (fun q => q.1 = row.teacher_name) with
            | none => rfl
            | some q => rw [hq] at hl; exact absurd hl (by simp)
          show ((db.teachers ++ [(row.teacher_name, db.nextTeacherId)]).find?
            (fun q => q.1 = row.teacher_name)).map (·.2) = some db.nextTeacherId
          rw [List.find?_append, hfn]
          simp [List.find?_cons]
        by_cases hf : scheduleFound
            { db with
              teachers := db.teachers ++ [(row.teacher_name, db.nextTeacherId)],
              nextTeacherId := db.nextTeacherId + 1 }
            ⟨db.nextTeacherId, sd, ed, row.shift, row.shift_type, row.shift_group⟩
        · rw [if_pos hf] at h
          obtain ⟨hdb, _⟩ := Prod.mk.injEq .. ▸ (Option.some.injEq .. ▸ h)
          subst hdb
          exact ⟨hlook, List.elem_iff.mp hf⟩
        · rw [if_neg hf] at h
          obtain ⟨hdb, _⟩ := Prod.mk.injEq .. ▸ (Option.some.injEq .. ▸ h)
          subst hdb
          exact ⟨hlook, List.mem_append.mpr (Or.inr (List.mem_singleton.mpr rfl))⟩

/-- A step whose teacher and schedule key are already present is a pure
double skip: the state is returned unchanged. -/
theorem persistStep_skip (db : PersistDB) (row : DialogueConsolidatedRow)
    (sd ed : DT) (i : Nat)
    (hs : parse12Swapped row.start_date = some sd)
    (he : parse12Swapped row.end_date = some ed)
    (hl : lookupTeacher db row.teacher_name = some i)
    (hk : (⟨i, sd, ed, row.shift, row.shift_type, row.shift_group⟩ : ScheduleKey) ∈
      db.schedules) :
    persistStep db row = some (db, false, false) := by
  rw [persistStep, hs, he]
  dsimp only
  rw [hl]
  dsimp only
  by_cases hf : scheduleFound db
      ⟨i, sd, ed, row.shift, row.shift_type, row.shift_group⟩
  · rw [if_pos hf]
  · exact absurd (show scheduleFound db
      ⟨i, sd, ed, row.shift, row.shift_type, row.shift_group⟩ = true from
      List.elem_iff.mpr hk) hf

/-- After a successful run, every processed row's teacher and key are
present in the final state. -/
theorem persistRows_establishes :
    ∀ (rows : List DialogueConsolidatedRow) (db db2 : PersistDB)
      (c : PersistCounters), persistRows db rows = some (db2, c) →
      ∀ row ∈ rows, ∃ sd ed i, parse12Swapped row.start_date = some sd ∧
        parse12Swapped row.end_date = some ed ∧
        lookupTeacher db2 row.teacher_name = some i ∧
        (⟨i, sd, ed, row.shift, row.shift_type, row.shift_group⟩ : ScheduleKey) ∈
          db2.schedules := by
  intro rows
  induction rows with
  | nil => intro db db2 c _ row hrow; exact absurd hrow (List.not_mem_nil row)
  | cons row0 rest ih =>
    intro db db2 c h row hrow
    rw [persistRows] at h
    cases hstep : persistStep db row0 with
    | none => rw [hstep] at h; exact absurd h (by simp)
    | some out =>
      obtain ⟨db1, o⟩ := out
      rw [hstep] at h
      dsimp only at h
      cases hrest : persistRows db1 rest with
      | none => rw [hrest] at h; exact absurd h (by simp)
      | some out2 =>
        obtain ⟨db2x, c2⟩ := out2
        rw [hrest] at h
        dsimp only at h
        obtain ⟨hdb, _⟩ := Prod.mk.injEq .. ▸ (Option.some.injEq .. ▸ h)
        subst hdb
        rcases List.mem_cons.mp hrow with hre | hro
        · subst hre
          obtain ⟨sd, ed, i, h1, h2, h3, h4⟩ :=
            persistStep_establishes db db1 row o hstep
          have hext := persistRows_extends rest db1 db2x c2 hrest
          exact ⟨sd, ed, i, h1, h2, hext.1 _ _ h3, hext.2 _ h4⟩
        · exact ih db1 db2x c2 hrest row hro

/-- C1: re-running the persistence loop on the state a first successful
run produced, with the identical reconciled input, changes nothing: the
state is returned as is, every teacher lookup hits (all counted skipped,
none inserted) and every schedule row's full composite key is found (all
counted skipped, zero new inserts). -/
theorem claim_c1 (db : PersistDB) (rows : List DialogueConsolidatedRow)
    (db1 : PersistDB) (c1 : PersistCounters)
    (h : persistRows db rows = some (db1, c1)) :
    persistRows db1 rows = some (db1, ⟨0, rows.length, 0, rows.length⟩) := by
  have hall := persistRows_establishes rows db db1 c1 h
  clear h
  induction rows with
  | nil => rfl
  | cons row rest ih =>
    obtain ⟨sd, ed, i, h1, h2, h3, h4⟩ := hall row (List.mem_cons_self row rest)
    have hstep := persistStep_skip db1 row sd ed i h1 h2 h3 h4
    have hrest := ih (fun r hr => hall r (List.mem_cons_of_mem row hr))
    rw [persistRows, hstep]
    dsimp only
    rw [hrest]
    simp [List.length_cons]

/-- C1, witness: persisting one concrete consolidated row into the empty
state, then re-running on the resulting state, reports one skipped
teacher, one skipped schedule and zero inserts, and returns the state
unchanged. -/
theorem claim_c1_witness :
    persistRows persistSampleDB [persistSampleRow] =
      some (persistSampleDB, ⟨0, 1, 0, 1⟩) :=
  claim_c1 emptyPersistDB [persistSampleRow] persistSampleDB ⟨1, 0, 1, 0⟩
    (by decide)

/-! ## C6 — per-teacher per-day aggregation -/

/-- The day loop visits exactly the inclusive range. -/
theorem daysFromToAux_eq :
    ∀ (n cur : Nat), daysFromToAux n cur = List.range' cur n := by
  intro n
  induction n with
  | zero => intro cur; rfl
  | succ m ih => intro cur; rw [daysFromToAux, List.range'_succ, ih]

theorem daysFromTo_eq (s e : Nat) : daysFromTo s e = List.range' s (e + 1 - s) := by
  rw [daysFromTo, daysFromToAux_eq]

theorem mem_daysFromTo (s e d : Nat) : d ∈ daysFromTo s e ↔ s ≤ d ∧ d ≤ e := by
  rw [daysFromTo_eq, List.mem_range']
  constructor
  · rintro ⟨i, hi, rfl⟩
    omega
  · intro h
    exact ⟨d - s, by omega, by omega⟩

/-- Pushing the accumulated `++` out of the teacher loop. -/
theorem foldl_append_flatMap {α β : Type} (f : α → List β) :
    ∀ (l : List α) (init : List β),
      l.foldl (fun acc x => acc ++ f x) init = init ++ l.flatMap f := by
  intro l
  induction l with
  | nil => intro init; simp
  | cons x xs ih => intro init; simp [ih, List.flatMap_cons, List.append_assoc]

/-- `table_days_efficiencies` in closed form: one record per distinct
teacher per day of the range, teacher-major. -/
theorem effTable_eq (schedules : List EffSchedule) (invoices : List EffInvoice)
    (s e : Nat) :
    effTable schedules invoices s e =
      (distinctEffTeachers schedules).flatMap
        (fun t => (daysFromTo s e).map (effDayFor schedules invoices t)) := by
  rw [effTable, foldl_append_flatMap]
  rfl

/-- The inner invoice loop from an arbitrary accumulator. -/
theorem invoiceFold_eq (invs : List EffInvoice) :
    ∀ acc : Nat × Nat,
      invs.foldl (fun a inv => if inv.eligible then (a.1 + 1, a.2) else (a.1, a.2 + 1))
        acc =
      (acc.1 + invs.countP (fun inv => inv.eligible),
       acc.2 + invs.countP (fun inv => !inv.eligible)) := by
  induction invs with
  | nil => intro acc; simp
  | cons inv rest ih =>
    intro acc
    rw [List.foldl_cons, ih]
    by_cases he : inv.eligible <;>
      simp [he, List.countP_cons] <;> omega

/-- `taught` and `no_shows` for a day are the per-schedule sums of
matching-invoice eligibility counts. -/
theorem taughtNoShows_spec (invoices : List EffInvoice) :
    ∀ (scheds : List EffSchedule) (acc : Nat × Nat),
      scheds.foldl (fun acc sch =>
        (invoices.filter (fun inv => inv.shift = sch.shift)).foldl
          (fun a inv => if inv.eligible then (a.1 + 1, a.2) else (a.1, a.2 + 1)) acc)
        acc =
      (acc.1 + (scheds.map (fun sch =>
        (invoices.filter (fun inv => inv.shift = sch.shift)).countP
          (fun inv => inv.eligible))).sum,
       acc.2 + (scheds.map (fun sch =>
        (invoices.filter (fun inv => inv.shift = sch.shift)).countP
          (fun inv => !inv.eligible))).sum) := by
  intro scheds
  induction scheds with
  | nil => intro acc; simp
  | cons sch rest ih =>
    intro acc
    rw [List.foldl_cons, invoiceFold_eq, ih]
    simp [List.map_cons, List.sum_cons]
    omega

theorem taughtNoShows_eq (invoices : List EffInvoice)
    (scheds : List EffSchedule) :
    taughtNoShows invoices scheds =
      ((scheds.map (fun sch =>
        (invoices.filter (fun inv => inv.shift = sch.shift)).countP
          (fun inv => inv.eligible))).sum,
       (scheds.map (fun sch =>
        (invoices.filter (fun inv => inv.shift = sch.shift)).countP
          (fun inv => !inv.eligible))).sum) := by
  rw [taughtNoShows, taughtNoShows_spec]
  simp

/-- Narrowing a small count is the identity. -/
theorem toI32_small (m : Nat) (h : m < 2 ^ 31) : toI32 m = (m : Int) := by
  rw [toI32]
  split <;> omega

/-- The double wrapping `usize` subtraction narrowed to `i32` computes
the exact integer `t - s - n` for small counts. -/
theorem variance_i32 (t s n : Nat) (ht : t < 2 ^ 30) (hs : s < 2 ^ 30)
    (hn : n < 2 ^ 30) :
    toI32 (subWrap64 (subWrap64 t s) n) = (t : Int) - s - n := by
  rw [toI32, subWrap64, subWrap64]
  split <;> omega

/-- C6: for every distinct teacher and every day of the inclusive range
(counts small enough for the `i32` narrowing to be lossless), the table
contains exactly one record for that teacher and day; its `scheduled` is
twice the teacher's schedule-row count on that day, its `taught` and
`no_shows` count the eligibility of every invoice row whose shift label
equals a matching schedule row's shift, and
`variance = taught - scheduled - no_shows`. -/
theorem claim_c6 (schedules : List EffSchedule) (invoices : List EffInvoice)
    (s e : Nat) (t : String) (d : Nat)
    (ht : t ∈ distinctEffTeachers schedules) (hs1 : s ≤ d) (hd : d ≤ e)
    (hsmall1 : (daySchedules schedules t d).length * 2 < 2 ^ 30)
    (hsmall2 : (taughtNoShows invoices (daySchedules schedules t d)).1 < 2 ^ 30)
    (hsmall3 : (taughtNoShows invoices (daySchedules schedules t d)).2 < 2 ^ 30) :
    ∃ entry ∈ effTable schedules invoices s e,
      entry.teacher_name = t ∧ entry.date = d ∧
      entry.scheduled = ((daySchedules schedules t d).length * 2 : Nat) ∧
      entry.taught = (((daySchedules schedules t d).map (fun sch =>
        (invoices.filter (fun inv => inv.shift = sch.shift)).countP
          (fun inv => inv.eligible))).sum : Nat) ∧
      entry.no_shows = (((daySchedules schedules t d).map (fun sch =>
        (invoices.filter (fun inv => inv.shift = sch.shift)).countP
          (fun inv => !inv.eligible))).sum : Nat) ∧
      entry.variance = entry.taught - entry.scheduled - entry.no_shows ∧
      (∀ x ∈ effTable schedules invoices s e,
        x.teacher_name = t → x.date = d → x = entry) := by
  refine ⟨effDayFor schedules invoices t d, ?_, rfl, rfl, ?_, ?_, ?_, ?_, ?_⟩
  · rw [effTable_eq]
    exact List.mem_flatMap.mpr ⟨t, ht,
      List.mem_map.mpr ⟨d, (mem_daysFromTo s e d).mpr ⟨hs1, hd⟩, rfl⟩⟩
  · show toI32 ((daySchedules schedules t d).length * 2) = _
    exact toI32_small _ (by omega)
  · show toI32 (taughtNoShows invoices (daySchedules schedules t d)).1 = _
    rw [toI32_small _ (by omega), taughtNoShows_eq]
  · show toI32 (taughtNoShows invoices (daySchedules schedules t d)).2 = _
    rw [toI32_small _ (by omega), taughtNoShows_eq]
  · show toI32 (subWrap64 (subWrap64 (taughtNoShows invoices
        (daySchedules schedules t d)).1 ((daySchedules schedules t d).length * 2))
        (taughtNoShows invoices (daySchedules schedules t d)).2) = _
    rw [variance_i32 _ _ _ hsmall2 (by omega) hsmall3]
    show _ = toI32 (taughtNoShows invoices (daySchedules schedules t d)).1 -
      toI32 ((daySchedules schedules t d).length * 2) -
      toI32 (taughtNoShows invoices (daySchedules schedules t d)).2
    rw [toI32_small _ (by omega), toI32_small _ (by omega),
      toI32_small _ (by omega)]
  · intro x hx hxt hxd
    rw [effTable_eq] at hx
    obtain ⟨t2, ht2, hx2⟩ := List.mem_flatMap.mp hx
    obtain ⟨d2, hd2, hx3⟩ := List.mem_map.mp hx2
    have hteq : t2 = t := by rw [← hxt, ← hx3]; rfl
    have hdeq : d2 = d := by rw [← hxd, ← hx3]; rfl
    rw [← hx3, hteq, hdeq]

/-- C6, witness: teacher "Dana", one schedule row on day 1 and one
matching eligible invoice, over the one-day range — the unique record is
`scheduled = 2`, `taught = 1`, `no_shows = 0`, `variance = -1`. -/
theorem claim_c6_witness :
    (∃ entry ∈ effTable [danaSchedule] [danaInvoice] 1 1,
      entry.teacher_name = "Dana" ∧ entry.date = 1 ∧
      entry.scheduled = ((daySchedules [danaSchedule] "Dana" 1).length * 2 : Nat) ∧
      entry.taught = (((daySchedules [danaSchedule] "Dana" 1).map (fun sch =>
        ([danaInvoice].filter (fun inv => inv.shift = sch.shift)).countP
          (fun inv => inv.eligible))).sum : Nat) ∧
      entry.no_shows = (((daySchedules [danaSchedule] "Dana" 1).map (fun sch =>
        ([danaInvoice].filter (fun inv => inv.shift = sch.shift)).countP
          (fun inv => !inv.eligible))).sum : Nat) ∧
      entry.variance = entry.taught - entry.scheduled - entry.no_shows ∧
      (∀ x ∈ effTable [danaSchedule] [danaInvoice] 1 1,
        x.teacher_name = "Dana" → x.date = 1 → x = entry)) ∧
    effDayFor [danaSchedule] [danaInvoice] "Dana" 1 =
      ⟨1, 2, 1, 0, -1, "Dana"⟩ :=
  ⟨claim_c6 [danaSchedule] [danaInvoice] 1 1 "Dana" 1 (by decide) (by decide)
    (by decide) (by decide) (by decide) (by decide), by decide⟩

/-! ## C7 — percentage variance at zero scheduled sessions -/

/-- The per-teacher totals in closed form (range sums; the wrapped
variance total is not needed below). -/
theorem teacherTotals_spec (schedules : List EffSchedule)
    (invoices : List EffInvoice) (s e : Nat) (t : String) :
    (teacherTotals schedules invoices s e t).scheduled =
      ((daysFromTo s e).map (fun d => (daySchedules schedules t d).length * 2)).sum ∧
    (teacherTotals schedules invoices s e t).taught =
      ((daysFromTo s e).map (fun d =>
        (taughtNoShows invoices (daySchedules schedules t d)).1)).sum ∧
    (teacherTotals schedules invoices s e t).no_shows =
      ((daysFromTo s e).map (fun d =>
        (taughtNoShows invoices (daySchedules schedules t d)).2)).sum := by
  rw [teacherTotals]
  generalize daysFromTo s e = days
  suffices h : ∀ (ds : List Nat) (acc : EffTotals),
      (ds.foldl (fun acc d =>
        let dayScheds := daySchedules schedules t d
        let scheduled := dayScheds.length * 2
        let tn := taughtNoShows invoices dayScheds
        let variance := subWrap64 (subWrap64 tn.1 scheduled) tn.2
        ⟨acc.scheduled + scheduled, acc.taught + tn.1, acc.no_shows + tn.2,
         addWrap64 acc.variance variance⟩) acc).scheduled =
        acc.scheduled + (ds.map (fun d => (daySchedules schedules t d).length * 2)).sum ∧
      (ds.foldl (fun acc d =>
        let dayScheds := daySchedules schedules t d
        let scheduled := dayScheds.length * 2
        let tn := taughtNoShows invoices dayScheds
        let variance := subWrap64 (subWrap64 tn.1 scheduled) tn.2
        ⟨acc.scheduled + scheduled, acc.taught + tn.1, acc.no_shows + tn.2,
         addWrap64 acc.variance variance⟩) acc).taught =
        acc.taught + (ds.map (fun d =>
          (taughtNoShows invoices (daySchedules schedules t d)).1)).sum ∧
      (ds.foldl (fun acc d =>
        let dayScheds := daySchedules schedules t d
        let scheduled := dayScheds.length * 2
        let tn := taughtNoShows invoices dayScheds
        let variance := subWrap64 (subWrap64 tn.1 scheduled) tn.2
        ⟨acc.scheduled + scheduled, acc.taught + tn.1, acc.no_shows + tn.2,
         addWrap64 acc.variance variance⟩) acc).no_shows =
        acc.no_shows + (ds.map (fun d =>
          (taughtNoShows invoices (daySchedules schedules t d)).2)).sum by
    have h0 := h days ⟨0, 0, 0, 0⟩
    simpa using h0
  intro ds
  induction ds with
  | nil => intro acc; simp
  | cons d0 rest ih =>
    intro acc
    rw [List.foldl_cons]
    refine ⟨?_, ?_, ?_⟩
    · rw [(ih _).1]; simp [List.map_cons, List.sum_cons]; omega
    · rw [(ih _).2.1]; simp [List.map_cons, List.sum_cons]; omega
    · rw [(ih _).2.2]; simp [List.map_cons, List.sum_cons]; omega

/-- A teacher with zero scheduled sessions over the range also has zero
taught sessions: each day's invoice join runs over that day's (empty)
schedule-row list. -/
theorem totals_taught_zero (schedules : List EffSchedule)
    (invoices : List EffInvoice) (s e : Nat) (t : String)
    (h : (teacherTotals schedules invoices s e t).scheduled = 0) :
    (teacherTotals schedules invoices s e t).taught = 0 := by
  obtain ⟨hsched, htaught, _⟩ := teacherTotals_spec schedules invoices s e t
  rw [htaught]
  rw [hsched] at h
  rw [List.sum_eq_zero_iff] at h ⊢
  intro x hx
  obtain ⟨d, hd, hxe⟩ := List.mem_map.mp hx
  have hlen : (daySchedules schedules t d).length * 2 = 0 :=
    h _ (List.mem_map.mpr ⟨d, hd, rfl⟩)
  have hnil : daySchedules schedules t d = [] := by
    rw [← List.length_eq_zero]
    omega
  rw [← hxe, hnil]
  rfl

/-- `0.0 / 0.0` is IEEE NaN, and `NaN * 100.0` stays NaN. -/
theorem percentageVariance_zero : percentageVariance 0 0 = F32.nan := by
  rw [percentageVariance]
  norm_num [f32Sub, f32Div, f32Mul]

/-- C7, counterexample.  Teacher "Zed" is among the fetched rows (the
query only bounds `end_date` above), but the row's start day 50 lies
outside the 1..2 report range: the summary computed for Zed is
`(0-0)/0*100` in `f32`, i.e. **NaN** — not the zero (or null) sentinel
the claim requires. -/
theorem claim_c7_counterexample :
    effSummaries [zedSchedule] [] 1 2 =
      [⟨"Zed", 0, 0, 0, 0, F32.nan⟩] ∧
    percentageVariance 0 0 = F32.nan ∧
    F32.nan ≠ F32.fin 0 := by
  have htot : teacherTotals [zedSchedule] [] 1 2 "Zed" = ⟨0, 0, 0, 0⟩ := by
    decide
  have hsum : summaryFor [zedSchedule] [] 1 2 "Zed" =
      ⟨"Zed", 0, 0, 0, 0, F32.nan⟩ := by
    show (⟨"Zed",
      toI32 (teacherTotals [zedSchedule] [] 1 2 "Zed").scheduled,
      toI32 (teacherTotals [zedSchedule] [] 1 2 "Zed").taught,
      toI32 (teacherTotals [zedSchedule] [] 1 2 "Zed").no_shows,
      toI32 (teacherTotals [zedSchedule] [] 1 2 "Zed").variance,
      percentageVariance (teacherTotals [zedSchedule] [] 1 2 "Zed").taught
        (teacherTotals [zedSchedule] [] 1 2 "Zed").scheduled⟩ :
        EfficiencySummary) = _
    rw [htot]
    rw [show (⟨0, 0, 0, 0⟩ : EffTotals).scheduled = 0 from rfl,
      show (⟨0, 0, 0, 0⟩ : EffTotals).taught = 0 from rfl,
      show (⟨0, 0, 0, 0⟩ : EffTotals).no_shows = 0 from rfl,
      show (⟨0, 0, 0, 0⟩ : EffTotals).variance = 0 from rfl,
      percentageVariance_zero]
    rfl
  refine ⟨?_, percentageVariance_zero, by simp⟩
  show [summaryFor [zedSchedule] [] 1 2 "Zed"] = _
  rw [hsum]

/-- C7, amended: `percentage_variance` is
`(taught - scheduled) / scheduled * 100` computed in `f32`; a teacher
with zero scheduled sessions in the window (whose taught count is then
necessarily zero as well) receives the propagated IEEE non-value **NaN**
(`0.0 / 0.0 * 100.0`), not a defined zero/null sentinel. -/
theorem claim_c7_amended (schedules : List EffSchedule)
    (invoices : List EffInvoice) (s e : Nat) (t : String)
    (ht : t ∈ distinctEffTeachers schedules)
    (hzero : (teacherTotals schedules invoices s e t).scheduled = 0) :
    (summaryFor schedules invoices s e t).percentage_variance =
      percentageVariance (teacherTotals schedules invoices s e t).taught
        (teacherTotals schedules invoices s e t).scheduled ∧
    (summaryFor schedules invoices s e t).percentage_variance = F32.nan ∧
    summaryFor schedules invoices s e t ∈ effSummaries schedules invoices s e := by
  refine ⟨rfl, ?_, List.mem_map.mpr ⟨t, ht, rfl⟩⟩
  show percentageVariance (teacherTotals schedules invoices s e t).taught
    (teacherTotals schedules invoices s e t).scheduled = F32.nan
  rw [hzero, totals_taught_zero schedules invoices s e t hzero]
  exact percentageVariance_zero

/-- C7 amended, witness at the concrete Zed input. -/
theorem claim_c7_amended_witness :
    (summaryFor [zedSchedule] [] 1 2 "Zed").percentage_variance =
      percentageVariance (teacherTotals [zedSchedule] [] 1 2 "Zed").taught
        (teacherTotals [zedSchedule] [] 1 2 "Zed").scheduled ∧
    (summaryFor [zedSchedule] [] 1 2 "Zed").percentage_variance = F32.nan ∧
    summaryFor [zedSchedule] [] 1 2 "Zed" ∈ effSummaries [zedSchedule] [] 1 2 :=
  claim_c7_amended [zedSchedule] [] 1 2 "Zed" (by decide) (by decide)

/-! ## C10 — the grand-total line's index -/

theorem insertSorted_length {α : Type} (le : α → α → Bool) (x : α) :
    ∀ l : List α, (insertSorted le x l).length = l.length + 1 := by
  intro l
  induction l with
  | nil => rfl
  | cons y ys ih =>
    rw [insertSorted]
    by_cases h : le x y
    · rw [if_pos h]; rfl
    · rw [if_neg h]; simp [ih]

theorem insertionSort_length {α : Type} (le : α → α → Bool) :
    ∀ l : List α, (insertionSort le l).length = l.length := by
  intro l
  induction l with
  | nil => rfl
  | cons x xs ih => rw [insertionSort, insertSorted_length, ih]; rfl

theorem insertSorted_perm {α : Type} (le : α → α → Bool) (x : α) :
    ∀ l : List α, (insertSorted le x l).Perm (x :: l) := by
  intro l
  induction l with
  | nil => exact List.Perm.refl _
  | cons y ys ih =>
    rw [insertSorted]
    by_cases h : le x y
    · rw [if_pos h]
    · rw [if_neg h]
      exact (ih.cons y).trans (List.Perm.swap x y ys)

theorem insertionSort_perm {α : Type} (le : α → α → Bool) :
    ∀ l : List α, (insertionSort le l).Perm l := by
  intro l
  induction l with
  | nil => exact List.Perm.refl _
  | cons x xs ih =>
    exact (insertSorted_perm le x (insertionSort le xs)).trans (ih.cons x)

/-- With pairwise-distinct names, the push-if-absent loop keeps every
row's name. -/
theorem distinctCTeachers_of_nodup :
    ∀ (l : List CSchedule) (acc : List String),
      ((l.map (·.teacher_name)).Nodup) →
      (∀ n ∈ l.map (·.teacher_name), n ∉ acc) →
      l.foldl (fun acc sch =>
        if acc.contains sch.teacher_name then acc else acc ++ [sch.teacher_name])
        acc = acc ++ l.map (·.teacher_name) := by
  intro l
  induction l with
  | nil => intro acc _ _; simp
  | cons sch rest ih =>
    intro acc hnd hfresh
    rw [List.map_cons, List.nodup_cons] at hnd
    rw [List.foldl_cons]
    have hno : ¬ (acc.contains sch.teacher_name = true) := fun hc =>
      (hfresh sch.teacher_name (by simp)) (List.elem_iff.mp hc)
    rw [if_neg hno]
    rw [ih (acc ++ [sch.teacher_name]) hnd.2 ?_]
    · simp
    · intro n hn hmem
      rcases List.mem_append.mp hmem with h1 | h1
      · exact hfresh n (List.mem_cons_of_mem _ hn) h1
      · rw [List.mem_singleton] at h1
        exact hnd.1 (h1 ▸ hn)

/-- The teacher summary loop preserves the line buffer's length, and it
succeeds exactly when the buffer has room for every index it touches. -/
theorem writeTeacherSummaries_spec (schedules : List CSchedule) :
    ∀ (teachers : List String) (lines : List String) (i : Nat),
      (∀ out, writeTeacherSummaries schedules lines i teachers = some out →
        out.1.length = lines.length) ∧
      (i + teachers.length ≤ lines.length →
        (writeTeacherSummaries schedules lines i teachers).isSome) := by
  intro teachers
  induction teachers with
  | nil =>
    intro lines i
    refine ⟨fun out h => ?_, fun _ => by rw [writeTeacherSummaries]; rfl⟩
    rw [writeTeacherSummaries] at h
    obtain rfl := (Option.some.injEq .. ▸ h).symm
    rfl
  | cons t ts ih =>
    intro lines i
    constructor
    · intro out h
      rw [writeTeacherSummaries] at h
      split at h
      · exact absurd h (by simp)
      · rename_i line hget
        cases hrec : writeTeacherSummaries schedules
            (lines.set i (stripNewlines line ++ t ++ "," ++
              toString (teacherTally schedules t).1 ++ "," ++
              toString (teacherTally schedules t).2.1 ++ "," ++
              toString (teacherTally schedules t).2.2 ++ "\n")) (i + 1) ts with
        | none => simp [hrec] at h
        | some out2 =>
          obtain ⟨l2, sc, pu, dr⟩ := out2
          simp only [hrec] at h
          have hlen := (ih _ (i + 1)).1 (l2, sc, pu, dr) hrec
          rw [List.length_set] at hlen
          obtain rfl : (l2, sc + (teacherTally schedules t).1,
              pu + (teacherTally schedules t).2.1,
              dr + (teacherTally schedules t).2.2) = out := by
            simpa using h
          exact hlen
    · intro hle
      simp only [List.length_cons] at hle
      cases hget : lines.get? i with
      | none =>
        exfalso
        rw [List.get?_eq_none] at hget
        omega
      | some line =>
        simp only [writeTeacherSummaries, hget]
        have hlen2 : (i + 1) + ts.length ≤ (lines.set i (stripNewlines line ++
            t ++ "," ++ toString (teacherTally schedules t).1 ++ "," ++
            toString (teacherTally schedules t).2.1 ++ "," ++
            toString (teacherTally schedules t).2.2 ++ "\n")).length := by
          rw [List.length_set]
          omega
        have hrec2 := (ih (lines.set i (stripNewlines line ++ t ++ "," ++
            toString (teacherTally schedules t).1 ++ "," ++
            toString (teacherTally schedules t).2.1 ++ "," ++
            toString (teacherTally schedules t).2.2 ++ "\n")) (i + 1)).2 hlen2
        rw [Option.isSome_iff_exists] at hrec2
        obtain ⟨out2, hout2⟩ := hrec2
        obtain ⟨l2, sc, pu, dr⟩ := out2
        simp [hout2]

/-- C10: the consolidated report is produced **iff** the fetched rows
outnumber the distinct teachers (the grand-total line is written into
`csv_lines[#teachers]`, one line per schedule row); in particular, when
every teacher holds exactly one schedule row — and for the empty result
set — the index is out of range and generation fails instead of
returning a CSV. -/
theorem claim_c10 (schedules : List CSchedule) :
    ((generateConsolidatedReport schedules).isSome ↔
      (reportTeachers schedules).length < schedules.length) ∧
    ((schedules.map (·.teacher_name)).Nodup →
      generateConsolidatedReport schedules = none) ∧
    generateConsolidatedReport ([] : List CSchedule) = none := by
  have hsortlen : (sortSchedules schedules).length = schedules.length :=
    insertionSort_length _ _
  have hcsvlen : ((sortSchedules schedules).map cschedLine).length =
      schedules.length := by
    rw [List.length_map, hsortlen]
  have hiff : (generateConsolidatedReport schedules).isSome ↔
      (reportTeachers schedules).length < schedules.length := by
    constructor
    · intro hs
      simp only [generateConsolidatedReport] at hs
      cases hw : writeTeacherSummaries (sortSchedules schedules)
          ((sortSchedules schedules).map cschedLine) 0
          (reportTeachers schedules) with
      | none => rw [hw] at hs; simp at hs
      | some out1 =>
        obtain ⟨lines1, sc, pu, dr⟩ := out1
        simp only [hw] at hs
        have hlen1 := (writeTeacherSummaries_spec (sortSchedules schedules)
          (reportTeachers schedules)
          ((sortSchedules schedules).map cschedLine) 0).1 (lines1, sc, pu, dr) hw
        cases hget : lines1.get? (reportTeachers schedules).length with
        | none =>
          rw [List.get?_eq_getElem?] at hget
          simp [hget] at hs
        | some line =>
          obtain ⟨hlt, _⟩ := List.get?_eq_some.mp hget
          rw [hlen1, hcsvlen] at hlt
          exact hlt
    · intro hlt
      simp only [generateConsolidatedReport]
      have hw2 := (writeTeacherSummaries_spec (sortSchedules schedules)
        (reportTeachers schedules)
        ((sortSchedules schedules).map cschedLine) 0).2
        (by rw [hcsvlen]; omega)
      rw [Option.isSome_iff_exists] at hw2
      obtain ⟨out1, hw⟩ := hw2
      obtain ⟨lines1, sc, pu, dr⟩ := out1
      have hlen1 := (writeTeacherSummaries_spec (sortSchedules schedules)
        (reportTeachers schedules)
        ((sortSchedules schedules).map cschedLine) 0).1 (lines1, sc, pu, dr) hw
      simp only [hw]
      cases hget : lines1.get? (reportTeachers schedules).length with
      | none =>
        exfalso
        rw [List.get?_eq_none, hlen1, hcsvlen] at hget
        omega
      | some line =>
        rw [List.get?_eq_getElem?] at hget
        simp [hget]
  refine ⟨hiff, ?_, by decide⟩
  intro hnodup
  have hperm : (sortSchedules schedules).Perm schedules := insertionSort_perm _ _
  have hnames : ((sortSchedules schedules).map (·.teacher_name)).Nodup :=
    ((hperm.map (·.teacher_name)).symm).nodup hnodup
  have hded : distinctCTeachers (sortSchedules schedules) =
      (sortSchedules schedules).map (·.teacher_name) := by
    rw [distinctCTeachers]
    rw [distinctCTeachers_of_nodup _ [] hnames
      (fun n _ h => absurd h (List.not_mem_nil n))]
    rfl
  have hTlen : (reportTeachers schedules).length = schedules.length := by
    rw [reportTeachers, insertionSort_length, hded, List.length_map, hsortlen]
  have hnot : ¬ (generateConsolidatedReport schedules).isSome := by
    rw [hiff, hTlen]
    omega
  rw [← Option.not_isSome_iff_eq_none]
  exact hnot

/-- C10, witness: a single fetched row (its teacher holds exactly one
schedule row) makes report generation fail. -/
theorem claim_c10_witness :
    generateConsolidatedReport [reportSampleRow] = none :=
  (claim_c10 [reportSampleRow]).2.1 (by decide)
